import Mathlib

/-!
# ClimateGuard AI: the risk-assessment pipeline of `src/app.js`

A shallow embedding of the three asynchronous handlers of the `App` component
(`assessRisk`, `predictFuture`, `generateAIInsights`) and of the render helper `getRiskClass`,
together with the parts of the JavaScript platform they rely on (`JSON.parse`, exceptions,
`try`/`catch`, the `useState` setters).

* A JavaScript value is a `JsValue`.  A string is its sequence of UTF-16 code units, a number is
  an IEEE 754 double (a decimal literal is rounded to the nearest double, ties to even), and an
  object lists its own properties in enumeration order.
* `JSON.parse` is a recursive-descent reader of the JSON grammar; `none` stands for the
  `SyntaxError` it throws.  `JSON.Denotes` states the grammar and what a text denotes without
  reference to the reader, and the reader is proved to return what the text denotes.
* A handler is an `Async` computation: a function from the `World` (the three `useState` cells
  and the log of observable effects) to an outcome (normal completion or a thrown `JsError`) and
  the world after it.
* `openai.chat.completions.create` is the external collaborator: a function from the request to
  either a completion or the error the promise is rejected with.
-/

/-! ## JavaScript values -/

/-- A JavaScript string: its UTF-16 code units. -/
structure JsString where
  units : List Nat
  deriving DecidableEq

namespace JsString

/-- The code units of one character: itself below U+10000, a surrogate pair above. -/
def utf16 (c : Char) : List Nat :=
  if c.toNat < 0x10000 then [c.toNat]
  else [0xD800 + (c.toNat - 0x10000) / 0x400, 0xDC00 + (c.toNat - 0x10000) % 0x400]

def ofChars : List Char → List Nat
  | [] => []
  | c :: cs => utf16 c ++ ofChars cs

/-- The JavaScript string with the characters of `s`. -/
def ofString (s : String) : JsString := ⟨ofChars s.data⟩

instance : Coe String JsString := ⟨ofString⟩

end JsString

/-- A JavaScript number that JSON text can denote: a finite double other than -0 (kept as the
rational it is), -0, or an infinity.  JSON has no literal for NaN. -/
inductive JsNumber where
  | finite (q : Rat)
  | negZero
  | infinity (negative : Bool)
  deriving DecidableEq

instance (n : Nat) : OfNat JsNumber n := ⟨.finite n⟩

namespace JsNumber

def log2Floor : Nat → Nat → Nat
  | 0, _ => 0
  | fuel + 1, n => if n < 2 then 0 else log2Floor fuel (n / 2) + 1

/-- The integer `e` with `2 ^ e ≤ n`, `n < 2 ^ (e + 1)`, for `n > 0`. -/
def log2 (n : Nat) : Nat := log2Floor n n

/-- The integer nearest to `a / b`, the even one of two that are equally near. -/
def roundHalfEven (a b : Nat) : Nat :=
  if 2 * (a % b) < b then a / b
  else if b < 2 * (a % b) then a / b + 1
  else if (a / b) % 2 = 0 then a / b
  else a / b + 1

/-- The integer `e` with `2 ^ e ≤ num / den < 2 ^ (e + 1)`, for `num, den > 0`: it is
`log2 num - log2 den` or one less. -/
def binaryExponent (num den : Nat) : Int :=
  let e0 : Int := (log2 num : Int) - (log2 den : Int)
  if 0 ≤ e0 then
    if den * 2 ^ e0.toNat ≤ num then e0 else e0 - 1
  else
    if den ≤ num * 2 ^ (-e0).toNat then e0 else e0 - 1

/-- The Number value of the real `num / den` with the given sign: the nearest double, ties to
even.  The unit in the last place is `2 ^ p` with `p = max e (-1022) - 52`, where `e` is the
binary exponent, so that subnormal results are rounded to multiples of `2 ^ (-1074)`; a result
of `2 ^ 1024` or more is an infinity and a result of zero keeps the sign. -/
def toDouble (negative : Bool) (num den : Nat) : JsNumber :=
  if num = 0 then (if negative then negZero else finite 0)
  else
    let p : Int := max (binaryExponent num den) (-1022) - 52
    if 0 ≤ p then
      let m := roundHalfEven num (den * 2 ^ p.toNat)
      if 2 ^ 1024 ≤ m * 2 ^ p.toNat then infinity negative
      else finite (mkRat (if negative then -((m * 2 ^ p.toNat : Nat) : Int) else (m * 2 ^ p.toNat : Nat)) 1)
    else
      let m := roundHalfEven (num * 2 ^ (-p).toNat) den
      if m = 0 then (if negative then negZero else finite 0)
      else finite (mkRat (if negative then -(m : Int) else (m : Int)) (2 ^ (-p).toNat))

/-- The Number value of the decimal `(i + f / 10 ^ n) * 10 ^ e`. -/
def ofDecimal (negative : Bool) (i f n : Nat) (e : Int) : JsNumber :=
  if 0 ≤ e then toDouble negative ((i * 10 ^ n + f) * 10 ^ e.toNat) (10 ^ n)
  else toDouble negative (i * 10 ^ n + f) (10 ^ n * 10 ^ (-e).toNat)

def truthy : JsNumber → Bool
  | finite q => q != 0
  | negZero => false
  | infinity _ => true

end JsNumber

/-- A JavaScript value, as far as JSON can produce one, plus `undefined`.  An object lists its
own properties in the order `Object.keys` enumerates them. -/
inductive JsValue where
  | undefined
  | null
  | bool (b : Bool)
  | number (n : JsNumber)
  | string (s : JsString)
  | array (items : List JsValue)
  | object (fields : List (JsString × JsValue))

namespace JsValue

/-- Truthiness, as used by `results && (...)` and `insights && (...)` in the render. -/
def truthy : JsValue → Bool
  | undefined => false
  | null => false
  | bool b => b
  | number n => n.truthy
  | string s => s.units != []
  | array _ => true
  | object _ => true

/-- Own-property lookup in a field list. -/
def lookup (key : JsString) : List (JsString × JsValue) → Option JsValue
  | [] => none
  | (k, v) :: fs => if k = key then some v else lookup key fs

/-- The optional-chaining read `v?.key`: `undefined` when the property is missing or when `v` is
not an object. -/
def getOpt (v : JsValue) (key : JsString) : JsValue :=
  match v with
  | object fs => (lookup key fs).getD undefined
  | _ => undefined

/-- Whether `v` is an object with an own property `key`. -/
def hasKey (v : JsValue) (key : JsString) : Bool :=
  match v with
  | object fs => (lookup key fs).isSome
  | _ => false

end JsValue

/-! ## `JSON.parse` -/

namespace JSON

def isWhitespace (c : Char) : Bool :=
  c = ' ' || c = '\t' || c = '\n' || c = '\r'

def skipWhitespace : List Char → List Char
  | [] => []
  | c :: cs => if isWhitespace c then skipWhitespace cs else c :: cs

def digit? (c : Char) : Option Nat :=
  if '0' ≤ c ∧ c ≤ '9' then some (c.toNat - 48) else none

def hexDigit? (c : Char) : Option Nat :=
  if '0' ≤ c ∧ c ≤ '9' then some (c.toNat - 48)
  else if 'a' ≤ c ∧ c ≤ 'f' then some (c.toNat - 87)
  else if 'A' ≤ c ∧ c ≤ 'F' then some (c.toNat - 55)
  else none

/-- Reads a maximal run of decimal digits: the value read, the number of digits and the
remaining input. -/
def readDigits : List Char → Nat → Nat → Nat × Nat × List Char
  | [], acc, n => (acc, n, [])
  | c :: cs, acc, n =>
    match digit? c with
    | some d => readDigits cs (10 * acc + d) (n + 1)
    | none => (acc, n, c :: cs)

/-- The integer part of a number: a single `0`, or a non-empty run of digits (a number such as
`01` is then rejected by whoever reads on and meets the `1`). -/
def readInt : List Char → Option (Nat × List Char)
  | [] => none
  | c :: cs =>
    if c = '0' then some (0, cs)
    else
      match readDigits (c :: cs) 0 0 with
      | (_, 0, _) => none
      | (v, _, rest) => some (v, rest)

/-- The optional fraction: its digits as a number and how many there are. -/
def readFraction : List Char → Option (Nat × Nat × List Char)
  | [] => some (0, 0, [])
  | c :: cs =>
    if c = '.' then
      match readDigits cs 0 0 with
      | (_, 0, _) => none
      | (v, n, rest) => some (v, n, rest)
    else some (0, 0, c :: cs)

def readExpDigits (neg : Bool) (cs : List Char) : Option (Int × List Char) :=
  match readDigits cs 0 0 with
  | (_, 0, _) => none
  | (v, _, rest) => some (if neg then -(v : Int) else (v : Int), rest)

/-- The exponent after its `e`: an optional sign, then digits. -/
def readSignedExp : List Char → Option (Int × List Char)
  | [] => none
  | c :: cs =>
    if c = '+' then readExpDigits false cs
    else if c = '-' then readExpDigits true cs
    else readExpDigits false (c :: cs)

/-- The optional exponent. -/
def readExponent : List Char → Option (Int × List Char)
  | [] => some (0, [])
  | c :: cs => if c = 'e' ∨ c = 'E' then readSignedExp cs else some (0, c :: cs)

/-- A number without its sign: integer part, fraction and exponent, rounded to a double. -/
def readUnsigned (negative : Bool) (cs : List Char) : Option (JsNumber × List Char) :=
  match readInt cs with
  | none => none
  | some (i, cs1) =>
    match readFraction cs1 with
    | none => none
    | some (f, n, cs2) =>
      match readExponent cs2 with
      | none => none
      | some (e, cs3) => some (JsNumber.ofDecimal negative i f n e, cs3)

def readNumber : List Char → Option (JsNumber × List Char)
  | [] => none
  | c :: cs => if c = '-' then readUnsigned true cs else readUnsigned false (c :: cs)

/-- The code unit written by the four hex digits of a `\u` escape. -/
def readHex4 (a b c d : Char) : Option Nat :=
  match hexDigit? a, hexDigit? b, hexDigit? c, hexDigit? d with
  | some x, some y, some z, some w => some (((x * 16 + y) * 16 + z) * 16 + w)
  | _, _, _, _ => none

/-- The code unit a one-letter escape stands for. -/
def escapeUnit? (e : Char) : Option Nat :=
  if e = '"' then some 0x22
  else if e = '\\' then some 0x5C
  else if e = '/' then some 0x2F
  else if e = 'b' then some 0x08
  else if e = 'f' then some 0x0C
  else if e = 'n' then some 0x0A
  else if e = 'r' then some 0x0D
  else if e = 't' then some 0x09
  else none

/-- Reads the body of a string literal, the opening quote already consumed; `acc` holds the
code units read so far, last first.  A control character below U+0020 is not allowed; a `\u`
escape gives its code unit as it is, so an escaped surrogate pair gives the two units of the
character it spells. -/
def readString : List Char → List Nat → Option (JsString × List Char)
  | [], _ => none
  | c :: cs, acc =>
    if c = '"' then some (⟨acc.reverse⟩, cs)
    else if c = '\\' then
      match cs with
      | [] => none
      | e :: cs1 =>
        if e = 'u' then
          match cs1 with
          | h1 :: h2 :: h3 :: h4 :: cs2 =>
            match readHex4 h1 h2 h3 h4 with
            | some u => readString cs2 (u :: acc)
            | none => none
          | _ => none
        else
          match escapeUnit? e with
          | some u => readString cs1 (u :: acc)
          | none => none
    else if c.toNat < 32 then none
    else readString cs ((JsString.utf16 c).reverse ++ acc)

/-- The array index a property key spells, if any: decimal digits without a leading zero, at
most `2 ^ 32 - 2`. -/
def arrayIndex? (k : JsString) : Option Nat :=
  match k.units with
  | [] => none
  | u :: us =>
    if (u :: us).all (fun x => 48 ≤ x && x ≤ 57) && (us.isEmpty || u != 48) then
      let i := (u :: us).foldl (fun acc x => 10 * acc + (x - 48)) 0
      if i ≤ 4294967294 then some i else none
    else none

/-- Whether a new key `k` is enumerated before the existing key `k1`: an array index comes
before every key that is not one and before every larger index; any other key comes last. -/
def enumeratedBefore (k k1 : JsString) : Bool :=
  match arrayIndex? k, arrayIndex? k1 with
  | some i, some j => i < j
  | some _, none => true
  | none, _ => false

/-- Gives the existing property `k` the value `v`; the property keeps its place. -/
def replaceField (k : JsString) (v : JsValue) :
    List (JsString × JsValue) → List (JsString × JsValue)
  | [] => []
  | (k1, v1) :: fs => if k1 = k then (k1, v) :: fs else (k1, v1) :: replaceField k v fs

/-- Creates the new property `k` at its place in the enumeration order. -/
def placeField (k : JsString) (v : JsValue) :
    List (JsString × JsValue) → List (JsString × JsValue)
  | [] => [(k, v)]
  | (k1, v1) :: fs =>
    if enumeratedBefore k k1 then (k, v) :: (k1, v1) :: fs else (k1, v1) :: placeField k v fs

/-- Defines property `k` of the object under construction (`CreateDataProperty`): a key met
again keeps its place and takes the new value, a new key is created. -/
def insertField (k : JsString) (v : JsValue) (fs : List (JsString × JsValue)) :
    List (JsString × JsValue) :=
  if (JsValue.lookup k fs).isSome then replaceField k v fs else placeField k v fs

/-- Strips `word` from the front of the input, when the input starts with it. -/
def readWord : List Char → List Char → Option (List Char)
  | [], cs => some cs
  | _ :: _, [] => none
  | w :: ws, c :: cs => if w = c then readWord ws cs else none

/-- One of the literals `true`, `false`, `null`, or else a number. -/
def readAtom (cs : List Char) : Option (JsValue × List Char) :=
  match readWord ['t', 'r', 'u', 'e'] cs with
  | some rest => some (.bool true, rest)
  | none =>
    match readWord ['f', 'a', 'l', 's', 'e'] cs with
    | some rest => some (.bool false, rest)
    | none =>
      match readWord ['n', 'u', 'l', 'l'] cs with
      | some rest => some (.null, rest)
      | none =>
        match readNumber cs with
        | some (q, rest) => some (.number q, rest)
        | none => none

mutual
/-- Reads one JSON value, leading whitespace included.  `fuel` bounds the nesting of calls; every
call consumes input, so twice the length of the input plus two is enough. -/
def readValue : Nat → List Char → Option (JsValue × List Char)
  | 0, _ => none
  | fuel + 1, cs =>
    match skipWhitespace cs with
    | [] => none
    | c :: rest =>
      if c = '\x7b' then
        match skipWhitespace rest with
        | [] => none
        | d :: rest1 =>
          if d = '\x7d' then some (.object [], rest1) else readMembers fuel (d :: rest1) []
      else if c = '[' then
        match skipWhitespace rest with
        | [] => none
        | d :: rest1 =>
          if d = ']' then some (.array [], rest1) else readElements fuel (d :: rest1) []
      else if c = '"' then
        match readString rest [] with
        | some (s, rest1) => some (.string s, rest1)
        | none => none
      else readAtom (c :: rest)
/-- Reads the elements of an array up to its closing bracket; `acc` holds those read so far,
last first. -/
def readElements : Nat → List Char → List JsValue → Option (JsValue × List Char)
  | 0, _, _ => none
  | fuel + 1, cs, acc =>
    match readValue fuel cs with
    | none => none
    | some (v, rest) =>
      match skipWhitespace rest with
      | [] => none
      | c :: rest1 =>
        if c = ',' then readElements fuel rest1 (v :: acc)
        else if c = ']' then some (.array (v :: acc).reverse, rest1)
        else none
/-- Reads the members of an object up to its closing brace; `acc` holds those read so far. -/
def readMembers : Nat → List Char → List (JsString × JsValue) → Option (JsValue × List Char)
  | 0, _, _ => none
  | fuel + 1, cs, acc =>
    match skipWhitespace cs with
    | [] => none
    | q :: rest =>
      if q = '"' then
        match readString rest [] with
        | none => none
        | some (k, rest1) =>
          match skipWhitespace rest1 with
          | [] => none
          | c :: rest2 =>
            if c = ':' then
              match readValue fuel rest2 with
              | none => none
              | some (v, rest3) =>
                match skipWhitespace rest3 with
                | [] => none
                | d :: rest4 =>
                  if d = ',' then readMembers fuel rest4 (insertField k v acc)
                  else if d = '\x7d' then some (.object (insertField k v acc), rest4)
                  else none
            else none
      else none
end

/-- `JSON.parse(text)`: the value the text denotes, `none` when it throws a `SyntaxError`. -/
def parse (text : String) : Option JsValue :=
  match readValue (2 * text.length + 2) text.data with
  | some (v, rest) =>
    match skipWhitespace rest with
    | [] => some v
    | _ => none
  | none => none

end JSON

/-! ## The JSON grammar, and what a text denotes -/

namespace JSON

/-- Every character of `ws` is one of the four whitespace characters of JSON. -/
def IsWhitespace (ws : List Char) : Prop :=
  ∀ c ∈ ws, c = ' ' ∨ c = '\t' ∨ c = '\n' ∨ c = '\r'

def IsDigit (c : Char) : Prop := '0' ≤ c ∧ c ≤ '9'

instance (c : Char) : Decidable (IsDigit c) := by
  unfold IsDigit
  infer_instance

/-- The number a run of decimal digits spells. -/
def decimal (ds : List Char) : Nat :=
  ds.foldl (fun acc c => 10 * acc + (c.toNat - 48)) 0

/-- A run of one or more decimal digits. -/
def IsDigits (ds : List Char) : Prop := ds ≠ [] ∧ ∀ c ∈ ds, IsDigit c

/-- The integer part of a numeral: `0`, or digits that do not start with `0`. -/
inductive IntegerPart : List Char → Prop where
  | zero : IntegerPart ['0']
  | digits (d : Char) (ds : List Char) :
    IsDigit d → d ≠ '0' → (∀ c ∈ ds, IsDigit c) → IntegerPart (d :: ds)

/-- The fraction of a numeral, with the number its digits spell and how many they are. -/
inductive FractionPart : List Char → Nat → Nat → Prop where
  | absent : FractionPart [] 0 0
  | digits (ds : List Char) : IsDigits ds → FractionPart ('.' :: ds) (decimal ds) ds.length

/-- The exponent of a numeral, with its value. -/
inductive ExponentPart : List Char → Int → Prop where
  | absent : ExponentPart [] 0
  | unsigned (e : Char) (ds : List Char) :
    e = 'e' ∨ e = 'E' → IsDigits ds → ExponentPart (e :: ds) (decimal ds)
  | plus (e : Char) (ds : List Char) :
    e = 'e' ∨ e = 'E' → IsDigits ds → ExponentPart (e :: '+' :: ds) (decimal ds)
  | minus (e : Char) (ds : List Char) :
    e = 'e' ∨ e = 'E' → IsDigits ds → ExponentPart (e :: '-' :: ds) (-(decimal ds : Int))

/-- A JSON numeral and the Number value it denotes: the double nearest to its decimal value. -/
inductive Numeral : List Char → JsNumber → Prop where
  | positive (i f x : List Char) (fv fn : Nat) (e : Int) :
    IntegerPart i → FractionPart f fv fn → ExponentPart x e →
    Numeral (i ++ f ++ x) (JsNumber.ofDecimal false (decimal i) fv fn e)
  | negative (i f x : List Char) (fv fn : Nat) (e : Int) :
    IntegerPart i → FractionPart f fv fn → ExponentPart x e →
    Numeral ('-' :: (i ++ f ++ x)) (JsNumber.ofDecimal true (decimal i) fv fn e)

/-- The one-letter escapes of a string literal and the code unit each stands for. -/
inductive Escape : Char → Nat → Prop where
  | quote : Escape '"' 0x22
  | backslash : Escape '\\' 0x5C
  | slash : Escape '/' 0x2F
  | backspace : Escape 'b' 0x08
  | formFeed : Escape 'f' 0x0C
  | lineFeed : Escape 'n' 0x0A
  | carriageReturn : Escape 'r' 0x0D
  | tab : Escape 't' 0x09

/-- The text between the quotes of a string literal and the code units it denotes. -/
inductive StringBody : List Char → List Nat → Prop where
  | nil : StringBody [] []
  | char (c : Char) (cs : List Char) (us : List Nat) :
    c ≠ '"' → c ≠ '\\' → 32 ≤ c.toNat → StringBody cs us →
    StringBody (c :: cs) (JsString.utf16 c ++ us)
  | escape (e : Char) (u : Nat) (cs : List Char) (us : List Nat) :
    Escape e u → StringBody cs us → StringBody ('\\' :: e :: cs) (u :: us)
  | unicode (h1 h2 h3 h4 : Char) (u : Nat) (cs : List Char) (us : List Nat) :
    readHex4 h1 h2 h3 h4 = some u → StringBody cs us →
    StringBody ('\\' :: 'u' :: h1 :: h2 :: h3 :: h4 :: cs) (u :: us)

/-- What a piece of JSON text can denote: a value, the elements of an array, or the members of
an object in the order of the text. -/
inductive Item where
  | value (v : JsValue)
  | elements (vs : List JsValue)
  | members (fs : List (JsString × JsValue))

/-- The object with the given members, defined one after the other. -/
def objectOf (fs : List (JsString × JsValue)) : JsValue :=
  .object (fs.foldl (fun acc kv => insertField kv.1 kv.2 acc) [])

/-- The JSON grammar with its meaning: `Denotes cs item` says that the text `cs` is a value, a
list of elements separated by commas or a list of members separated by commas, and that it
denotes `item`. -/
inductive Denotes : List Char → Item → Prop where
  | null : Denotes ['n', 'u', 'l', 'l'] (.value .null)
  | true : Denotes ['t', 'r', 'u', 'e'] (.value (.bool true))
  | false : Denotes ['f', 'a', 'l', 's', 'e'] (.value (.bool false))
  | number (cs : List Char) (n : JsNumber) : Numeral cs n → Denotes cs (.value (.number n))
  | string (body : List Char) (us : List Nat) :
    StringBody body us → Denotes ('"' :: body ++ ['"']) (.value (.string ⟨us⟩))
  | emptyArray (ws : List Char) :
    IsWhitespace ws → Denotes ('[' :: ws ++ [']']) (.value (.array []))
  | array (es : List Char) (vs : List JsValue) :
    Denotes es (.elements vs) → Denotes ('[' :: es ++ [']']) (.value (.array vs))
  | emptyObject (ws : List Char) :
    IsWhitespace ws → Denotes ('\x7b' :: ws ++ ['\x7d']) (.value (.object []))
  | object (ms : List Char) (fs : List (JsString × JsValue)) :
    Denotes ms (.members fs) → Denotes ('\x7b' :: ms ++ ['\x7d']) (.value (objectOf fs))
  | lastElement (ws1 body ws2 : List Char) (v : JsValue) :
    IsWhitespace ws1 → IsWhitespace ws2 → Denotes body (.value v) →
    Denotes (ws1 ++ body ++ ws2) (.elements [v])
  | element (ws1 body ws2 es : List Char) (v : JsValue) (vs : List JsValue) :
    IsWhitespace ws1 → IsWhitespace ws2 → Denotes body (.value v) → Denotes es (.elements vs) →
    Denotes (ws1 ++ body ++ ws2 ++ ',' :: es) (.elements (v :: vs))
  | lastMember (ws1 key ws2 ws3 body ws4 : List Char) (k : List Nat) (v : JsValue) :
    IsWhitespace ws1 → IsWhitespace ws2 → IsWhitespace ws3 → IsWhitespace ws4 →
    StringBody key k → Denotes body (.value v) →
    Denotes (ws1 ++ '"' :: key ++ '"' :: ws2 ++ ':' :: ws3 ++ body ++ ws4)
      (.members [(⟨k⟩, v)])
  | member (ws1 key ws2 ws3 body ws4 ms : List Char) (k : List Nat) (v : JsValue)
      (fs : List (JsString × JsValue)) :
    IsWhitespace ws1 → IsWhitespace ws2 → IsWhitespace ws3 → IsWhitespace ws4 →
    StringBody key k → Denotes body (.value v) → Denotes ms (.members fs) →
    Denotes (ws1 ++ '"' :: key ++ '"' :: ws2 ++ ':' :: ws3 ++ body ++ ws4 ++ ',' :: ms)
      (.members ((⟨k⟩, v) :: fs))

/-- A JSON text is a value with whitespace around it; `Encodes text v` says that `text` is one
and that the value is `v`. -/
def Encodes (text : String) (v : JsValue) : Prop :=
  ∃ ws1 body ws2, IsWhitespace ws1 ∧ IsWhitespace ws2 ∧ Denotes body (.value v) ∧
    text.data = ws1 ++ body ++ ws2

/-- What may follow a numeral: nothing, or a character that cannot continue it. -/
def Terminated (rest : List Char) : Prop :=
  ∀ c tl, rest = c :: tl → ¬ IsDigit c ∧ c ≠ '.' ∧ c ≠ 'e' ∧ c ≠ 'E'

/-- What the readers do on a text that denotes `item`: `readValue` returns the value and leaves
what follows, `readElements` and `readMembers` read on to the closing bracket or brace.  The
first component records how the text starts, which is what `readValue` looks at to tell an empty
array or object from one with entries. -/
def Complete (cs : List Char) : Item → Prop
  | .value v =>
    (∃ c tl, cs = c :: tl ∧ isWhitespace c = false ∧ c ≠ ']') ∧
    ∀ rest, Terminated rest → ∃ fuel, readValue fuel (cs ++ rest) = some (v, rest)
  | .elements vs =>
    (∃ ws c tl, IsWhitespace ws ∧ cs = ws ++ c :: tl ∧ isWhitespace c = false ∧ c ≠ ']') ∧
    ∀ acc rest, ∃ fuel,
      readElements fuel (cs ++ ']' :: rest) acc = some (.array (acc.reverse ++ vs), rest)
  | .members fs =>
    (∃ ws tl, IsWhitespace ws ∧ cs = ws ++ '"' :: tl) ∧
    ∀ acc rest, ∃ fuel,
      readMembers fuel (cs ++ '\x7d' :: rest) acc =
        some (.object (fs.foldl (fun a kv => insertField kv.1 kv.2 a) acc), rest)

end JSON

/-! ## Effects: exceptions, the state cells and the log -/

/-- What a handler can throw or be rejected with. -/
inductive JsError where
  /-- The promise of `openai.chat.completions.create` is rejected (network or authentication
  failure): the TransportError of the specification. -/
  | transport (reason : String)
  /-- `JSON.parse` met text that is not JSON. -/
  | malformed
  /-- A property was read from `undefined`. -/
  | typeError

/-- One message of a chat request. -/
structure Message where
  role : String
  content : String

/-- The argument of `openai.chat.completions.create`. -/
structure Request where
  model : String
  messages : List Message
  temperature : Rat
  max_tokens : Nat

/-- The `message` of a choice; `content` is `none` for JavaScript `null`. -/
structure ChoiceMessage where
  content : Option String

structure Choice where
  message : ChoiceMessage

/-- The value `openai.chat.completions.create` resolves to. -/
structure Completion where
  choices : List Choice

/-- The external text-generation service: for each request, the completion it resolves to or
the error it is rejected with. -/
abbrev ModelClient := Request → Except JsError Completion

/-- The values of the four input cells that the handlers close over. -/
structure AssessmentContext where
  location : String
  propertyType : String
  timeframe : String
  scenario : String

/-- The three output cells: `useState(false)`, `useState(null)`, `useState(null)`. -/
structure PipelineState where
  loading : Bool
  results : JsValue
  insights : JsValue

/-- An observable effect of a handler. -/
inductive Event where
  | setLoading (b : Bool)
  | setResults (v : JsValue)
  | setInsights (v : JsValue)
  | create (request : Request)
  | alert (text : String)
  | consoleError (label : String) (error : JsError)

/-- The state cells and the effects so far, oldest first. -/
structure World where
  state : PipelineState
  log : List Event

/-- A computation that may change the world and either completes with a value or throws. -/
def Async (α : Type) : Type := World → Except JsError α × World

namespace Async

def pure {α : Type} (a : α) : Async α := fun w => (.ok a, w)

def bind {α β : Type} (m : Async α) (f : α → Async β) : Async β := fun w =>
  match m w with
  | (.ok a, w1) => f a w1
  | (.error e, w1) => (.error e, w1)

def throw {α : Type} (e : JsError) : Async α := fun w => (.error e, w)

/-- The statement `try body catch (e) handler`. -/
def tryCatch {α : Type} (body : Async α) (handler : JsError → Async α) : Async α := fun w =>
  match body w with
  | (.ok a, w1) => (.ok a, w1)
  | (.error e, w1) => handler e w1

instance : Monad Async where
  pure := Async.pure
  bind := Async.bind

instance : MonadExcept JsError Async where
  throw := Async.throw
  tryCatch := Async.tryCatch

/-- Appends an effect to the log. -/
def emit (ev : Event) : Async Unit := fun w => (.ok (), { w with log := w.log ++ [ev] })

end Async

open Async in
def setLoading (b : Bool) : Async Unit := fun w =>
  (.ok (), { state := { w.state with loading := b }, log := w.log ++ [.setLoading b] })

open Async in
def setResults (v : JsValue) : Async Unit := fun w =>
  (.ok (), { state := { w.state with results := v }, log := w.log ++ [.setResults v] })

open Async in
def setInsights (v : JsValue) : Async Unit := fun w =>
  (.ok (), { state := { w.state with insights := v }, log := w.log ++ [.setInsights v] })

def alert (text : String) : Async Unit := Async.emit (.alert text)

def consoleError (label : String) (error : JsError) : Async Unit :=
  Async.emit (.consoleError label error)

/-- The call `await openai.chat.completions.create(request)`: the call is logged, then the
awaited promise resolves or throws. -/
def awaitCreate (client : ModelClient) (request : Request) : Async Completion := fun w =>
  (client request, { w with log := w.log ++ [.create request] })

/-- The read `completion.choices[0].message.content`: a `TypeError` when there is no first
choice. -/
def firstContent (completion : Completion) : Async (Option String) :=
  match completion.choices with
  | [] => Async.throw .typeError
  | choice :: _ => Async.pure choice.message.content

/-- The call `JSON.parse(aiResponse)` as a statement: `null` is first converted to the string
`"null"`, and text that is not JSON throws. -/
def jsonParse (aiResponse : Option String) : Async JsValue :=
  match JSON.parse (aiResponse.getD "null") with
  | some v => Async.pure v
  | none => Async.throw .malformed

/-! ## The requests -/

def assessRequest (ctx : AssessmentContext) : Request :=
  { model := "gpt-4o-mini"
    messages :=
      [ { role := "system"
          content := "You are a climate risk assessment expert. Analyze the given location and provide risk levels (Low/Medium/High) for flood, heat, and wildfire risks. Respond with only a JSON object containing \x27flood\x27, \x27heat\x27, and \x27wildfire\x27 keys, each with \x27level\x27 and \x27percentage\x27 properties." },
        { role := "user"
          content := "Assess climate risks for " ++ ctx.location ++ ". Consider the property type: " ++ ctx.propertyType ++ ". Provide risk analysis in JSON format." } ]
    temperature := 7 / 10
    max_tokens := 300 }

def predictRequest (ctx : AssessmentContext) : Request :=
  { model := "gpt-4o-mini"
    messages :=
      [ { role := "system"
          content := "You are a climate scientist specializing in future climate projections. Provide detailed risk assessments considering time-dependent climate change impacts. Respond with JSON containing \x27flood\x27, \x27heat\x27, and \x27wildfire\x27 risks with \x27level\x27 and \x27percentage\x27 properties." },
        { role := "user"
          content := "Predict climate risks for " ++ ctx.location ++ " over the next " ++ ctx.timeframe ++ " years under " ++ ctx.scenario ++ " climate scenario for " ++ ctx.propertyType ++ " property. Consider accelerating climate change impacts." } ]
    temperature := 7 / 10
    max_tokens := 400 }

def insightsRequest (ctx : AssessmentContext) : Request :=
  { model := "gpt-4o-mini"
    messages :=
      [ { role := "system"
          content := "You are a climate adaptation expert. Generate 3 detailed climate insights for the given location and property type. Format as JSON array with objects containing \x27title\x27 and \x27content\x27 fields." },
        { role := "user"
          content := "Generate climate insights for " ++ ctx.location ++ ", " ++ ctx.propertyType ++ " property, " ++ ctx.timeframe ++ "-year timeframe, " ++ ctx.scenario ++ " climate scenario. Include specific recommendations and local climate data." } ]
    temperature := 8 / 10
    max_tokens := 800 }

/-! ## The fallback literals -/

def hazard (level : JsString) (percentage : JsNumber) : JsValue :=
  .object [("level", .string level), ("percentage", .number percentage)]

/-- The literal of the inner `catch` of `assessRisk`. -/
def assessFallback : JsValue :=
  .object [("flood", hazard "Medium" 45), ("heat", hazard "Medium" 55),
    ("wildfire", hazard "Low" 25)]

/-- The literal of the inner `catch` of `predictFuture`. -/
def predictFallback : JsValue :=
  .object [("flood", hazard "High" 75), ("heat", hazard "High" 80),
    ("wildfire", hazard "Medium" 60)]

/-- The literal of the inner `catch` of `generateAIInsights`. -/
def insightsFallback (ctx : AssessmentContext) : JsValue :=
  .array
    [ .object
        [ ("title", .string "AI Climate Analysis"),
          ("content", .string ("Climate analysis for " ++ ctx.location ++ " shows varying risk levels. The AI assessment indicates the need for comprehensive climate adaptation planning for " ++ ctx.propertyType ++ " properties.")) ] ]

/-! ## The handlers -/

def generateAIInsights (client : ModelClient) (ctx : AssessmentContext) : Async Unit :=
  tryCatch
    (do
      let completion ← awaitCreate client (insightsRequest ctx)
      let aiResponse ← firstContent completion
      let aiInsights ← tryCatch (jsonParse aiResponse) (fun _ => pure (insightsFallback ctx))
      setInsights aiInsights)
    (fun error => consoleError "Error generating AI insights:" error)

def assessRisk (client : ModelClient) (ctx : AssessmentContext) : Async Unit :=
  if ctx.location = "" then
    alert "Please enter a location"
  else do
    setLoading true
    tryCatch
      (do
        let completion ← awaitCreate client (assessRequest ctx)
        let aiResponse ← firstContent completion
        let riskResults ← tryCatch (jsonParse aiResponse) (fun parseError => do
          consoleError "AI response parsing error:" parseError
          pure assessFallback)
        setResults riskResults
        generateAIInsights client ctx
        setLoading false)
      (fun error => do
        consoleError "Error with AI analysis:" error
        alert "AI analysis failed. Please check your API key in Secrets."
        setLoading false)

def predictFuture (client : ModelClient) (ctx : AssessmentContext) : Async Unit := do
  setLoading true
  tryCatch
    (do
      let completion ← awaitCreate client (predictRequest ctx)
      let aiResponse ← firstContent completion
      let riskResults ← tryCatch (jsonParse aiResponse) (fun parseError => do
        consoleError "AI response parsing error:" parseError
        pure predictFallback)
      setResults riskResults
      generateAIInsights client ctx
      setLoading false)
    (fun error => do
      consoleError "Error with AI prediction:" error
      alert "AI prediction failed. Please check your API key in Secrets."
      setLoading false)

/-- The class name of a risk level: the `switch` compares with `===`, so only the three exact
strings leave the default branch. -/
def getRiskClass (level : JsValue) : String :=
  match level with
  | .string s =>
    if s = "Low" then "risk-low"
    else if s = "Medium" then "risk-medium"
    else if s = "High" then "risk-high"
    else "risk-medium"
  | _ => "risk-medium"

/-! ## Running a handler -/

/-- The two public entry points. -/
inductive Mode where
  | assess
  | predict

def Mode.handler : Mode → ModelClient → AssessmentContext → Async Unit
  | .assess => assessRisk
  | .predict => predictFuture

def Mode.request : Mode → AssessmentContext → Request
  | .assess => assessRequest
  | .predict => predictRequest

def Mode.fallback : Mode → JsValue
  | .assess => assessFallback
  | .predict => predictFallback

/-- The world a handler starts in: the given cells and an empty log. -/
def World.start (st : PipelineState) : World := { state := st, log := [] }

/-- The text of a completion, when its first choice carries one. -/
def Completion.text? (completion : Completion) : Option String :=
  match completion.choices with
  | [] => none
  | choice :: _ => choice.message.content

/-- A completion with one choice that carries `text`. -/
def Completion.ofText (text : String) : Completion :=
  { choices := [{ message := { content := some text } }] }

/-! ## The cases of a run -/

/-- The value stored by a handler for a response: the decoded value, or the fallback. -/
def decoded (content : Option String) (fallback : JsValue) : JsValue :=
  (JSON.parse (content.getD "null")).getD fallback

def Mode.errorLabel : Mode → String
  | .assess => "Error with AI analysis:"
  | .predict => "Error with AI prediction:"

def Mode.alertText : Mode → String
  | .assess => "AI analysis failed. Please check your API key in Secrets."
  | .predict => "AI prediction failed. Please check your API key in Secrets."

/-- Whether the handler of the mode gets as far as its primary call: `predictFuture` always
does, `assessRisk` only for a location that is not empty. -/
def Mode.starts (mode : Mode) (ctx : AssessmentContext) : Prop :=
  mode = .predict ∨ ctx.location ≠ ""

/-- The events between the primary call and `setResults`: the parse error is logged when the
fallback is taken. -/
def parseLog (content : Option String) : List Event :=
  match JSON.parse (content.getD "null") with
  | some _ => []
  | none => [.consoleError "AI response parsing error:" .malformed]

/-- The world in which the insights step starts, after a primary call that resolved with a
first choice. -/
def afterResults (mode : Mode) (ctx : AssessmentContext) (w : World) (content : Option String) :
    World :=
  { state := { w.state with loading := true, results := decoded content mode.fallback },
    log := w.log ++ [.setLoading true, .create (mode.request ctx)] ++ parseLog content ++
      [.setResults (decoded content mode.fallback)] }

/-! ## Reading the log -/

/-- The requests sent to the model client, in order. -/
def createCalls : List Event → List Request
  | [] => []
  | .create request :: evs => request :: createCalls evs
  | _ :: evs => createCalls evs

/-- The values written to `results`, in order. -/
def resultsWrites : List Event → List JsValue
  | [] => []
  | .setResults v :: evs => v :: resultsWrites evs
  | _ :: evs => resultsWrites evs

/-- The values written to `loading`, in order. -/
def loadingWrites : List Event → List Bool
  | [] => []
  | .setLoading b :: evs => b :: loadingWrites evs
  | _ :: evs => loadingWrites evs

/-! ## Schemas of the data model -/

def isLevel : JsValue → Bool
  | .string s => s = "Low" || s = "Medium" || s = "High"
  | _ => false

def isNumber : JsValue → Bool
  | .number _ => true
  | _ => false

/-- A hazard entry of the risk schema: a level among Low, Medium, High and a numeric
percentage. -/
def isHazard (v : JsValue) : Bool :=
  isLevel (v.getOpt "level") && isNumber (v.getOpt "percentage")

/-- The risk schema: an object with the keys `flood`, `heat` and `wildfire`, each a hazard
entry. -/
def matchesRiskSchema (v : JsValue) : Bool :=
  isHazard (v.getOpt "flood") && isHazard (v.getOpt "heat") && isHazard (v.getOpt "wildfire")

/-- Whether the entry under `key` is there with a `level` and a `percentage`. -/
def hasHazard (v : JsValue) (key : JsString) : Bool :=
  v.hasKey key && (v.getOpt key).hasKey "level" && (v.getOpt key).hasKey "percentage"

/-- Whether `v` is present and has all three hazard keys, each with a level and a percentage. -/
def hasAllHazards (v : JsValue) : Bool :=
  v.truthy && hasHazard v "flood" && hasHazard v "heat" && hasHazard v "wildfire"

/-! ## Concrete inputs -/

/-- The cells before the first run. -/
def idle : PipelineState := { loading := false, results := .null, insights := .null }

def miami : AssessmentContext :=
  { location := "Miami, FL", propertyType := "residential", timeframe := "10",
    scenario := "moderate" }

def denver : AssessmentContext :=
  { location := "Denver, CO", propertyType := "commercial", timeframe := "25",
    scenario := "severe" }

/-- The location field cleared, the other fields at their defaults. -/
def nowhere : AssessmentContext :=
  { location := "", propertyType := "residential", timeframe := "10", scenario := "moderate" }

def miamiText : String :=
  "\x7b\"flood\":\x7b\"level\":\"High\",\"percentage\":90\x7d,\"heat\":\x7b\"level\":\"Medium\",\"percentage\":50\x7d,\"wildfire\":\x7b\"level\":\"Low\",\"percentage\":10\x7d\x7d"

def miamiRisk : JsValue :=
  .object [("flood", hazard "High" 90), ("heat", hazard "Medium" 50),
    ("wildfire", hazard "Low" 10)]

/-- A client that answers the insights request with `insights` and every other request with
`primary`. -/
def scripted (primary insights : Except JsError Completion) : ModelClient := fun request =>
  if request.max_tokens = 800 then insights else primary

/-- A state left by an earlier run: results and insights are set. -/
def earlier : PipelineState :=
  { loading := false, results := miamiRisk, insights := insightsFallback miami }

/-! ## The fuel of `JSON.parse` is enough -/

namespace JSON

theorem skipWhitespace_length (cs : List Char) : (skipWhitespace cs).length ≤ cs.length := by
  induction cs with
  | nil => simp [skipWhitespace]
  | cons c cs ih =>
    unfold skipWhitespace
    split
    · exact Nat.le_succ_of_le ih
    · exact Nat.le_refl _

theorem skipWhitespace_cons_length (cs rest : List Char) (c : Char)
    (h : skipWhitespace cs = c :: rest) : rest.length + 1 ≤ cs.length := by
  have := skipWhitespace_length cs
  rw [h] at this
  simpa using this

theorem readDigits_length (cs : List Char) (acc n : Nat) :
    (readDigits cs acc n).2.2.length ≤ cs.length := by
  induction cs generalizing acc n with
  | nil => simp [readDigits]
  | cons c cs ih =>
    unfold readDigits
    split
    · exact Nat.le_succ_of_le (ih _ _)
    · exact Nat.le_refl _

theorem readInt_length (cs : List Char) (v : Nat) (rest : List Char)
    (h : readInt cs = some (v, rest)) : rest.length ≤ cs.length := by
  unfold readInt at h
  split at h
  · cases h
  · rename_i c cs1
    split at h
    · simp only [Option.some.injEq, Prod.mk.injEq] at h
      rw [← h.2]
      simp
    · have hl := readDigits_length (c :: cs1) 0 0
      split at h
      · cases h
      · rename_i heq
        simp only [Option.some.injEq, Prod.mk.injEq] at h
        rw [heq] at hl
        rw [← h.2]
        exact hl

theorem readFraction_length (cs : List Char) (v n : Nat) (rest : List Char)
    (h : readFraction cs = some (v, n, rest)) : rest.length ≤ cs.length := by
  unfold readFraction at h
  split at h
  · simp only [Option.some.injEq, Prod.mk.injEq] at h
    rw [← h.2.2]
  · rename_i c cs1
    split at h
    · have hl := readDigits_length cs1 0 0
      split at h
      · cases h
      · rename_i heq
        simp only [Option.some.injEq, Prod.mk.injEq] at h
        rw [heq] at hl
        rw [← h.2.2]
        exact Nat.le_succ_of_le hl
    · simp only [Option.some.injEq, Prod.mk.injEq] at h
      rw [← h.2.2]

theorem readExpDigits_length (neg : Bool) (cs : List Char) (e : Int) (rest : List Char)
    (h : readExpDigits neg cs = some (e, rest)) : rest.length ≤ cs.length := by
  unfold readExpDigits at h
  have hl := readDigits_length cs 0 0
  split at h
  · cases h
  · rename_i heq
    simp only [Option.some.injEq, Prod.mk.injEq] at h
    rw [heq] at hl
    rw [← h.2]
    exact hl

theorem readSignedExp_length (cs : List Char) (e : Int) (rest : List Char)
    (h : readSignedExp cs = some (e, rest)) : rest.length ≤ cs.length := by
  unfold readSignedExp at h
  split at h
  · cases h
  · split at h
    · exact Nat.le_succ_of_le (readExpDigits_length _ _ _ _ h)
    · split at h
      · exact Nat.le_succ_of_le (readExpDigits_length _ _ _ _ h)
      · exact readExpDigits_length _ _ _ _ h

theorem readExponent_length (cs : List Char) (e : Int) (rest : List Char)
    (h : readExponent cs = some (e, rest)) : rest.length ≤ cs.length := by
  unfold readExponent at h
  split at h
  · simp only [Option.some.injEq, Prod.mk.injEq] at h
    rw [← h.2]
  · split at h
    · exact Nat.le_succ_of_le (readSignedExp_length _ _ _ h)
    · simp only [Option.some.injEq, Prod.mk.injEq] at h
      rw [← h.2]

theorem readUnsigned_length (negative : Bool) (cs : List Char) (q : JsNumber)
    (rest : List Char) (h : readUnsigned negative cs = some (q, rest)) :
    rest.length ≤ cs.length := by
  unfold readUnsigned at h
  split at h
  · cases h
  · rename_i i cs1 h1
    split at h
    · cases h
    · rename_i f n cs2 h2
      split at h
      · cases h
      · rename_i e cs3 h3
        simp only [Option.some.injEq, Prod.mk.injEq] at h
        have a1 := readInt_length _ _ _ h1
        have a2 := readFraction_length _ _ _ _ h2
        have a3 := readExponent_length _ _ _ h3
        rw [← h.2]
        omega

theorem readNumber_length (cs : List Char) (q : JsNumber) (rest : List Char)
    (h : readNumber cs = some (q, rest)) : rest.length ≤ cs.length := by
  unfold readNumber at h
  split at h
  · cases h
  · split at h
    · have := readUnsigned_length _ _ _ _ h
      simp only [List.length_cons]
      omega
    · exact readUnsigned_length _ _ _ _ h

theorem readWord_length (word cs rest : List Char) (h : readWord word cs = some rest) :
    rest.length ≤ cs.length := by
  induction word generalizing cs with
  | nil =>
    simp only [readWord, Option.some.injEq] at h
    rw [h]
  | cons w ws ih =>
    cases cs with
    | nil => simp [readWord] at h
    | cons c cs =>
      simp only [readWord] at h
      split at h
      · exact Nat.le_succ_of_le (ih cs h)
      · cases h

theorem readAtom_length (cs : List Char) (v : JsValue) (rest : List Char)
    (h : readAtom cs = some (v, rest)) : rest.length ≤ cs.length := by
  unfold readAtom at h
  split at h
  · rename_i r hr
    simp only [Option.some.injEq, Prod.mk.injEq] at h
    rw [← h.2]
    exact readWord_length _ _ _ hr
  · split at h
    · rename_i r hr
      simp only [Option.some.injEq, Prod.mk.injEq] at h
      rw [← h.2]
      exact readWord_length _ _ _ hr
    · split at h
      · rename_i r hr
        simp only [Option.some.injEq, Prod.mk.injEq] at h
        rw [← h.2]
        exact readWord_length _ _ _ hr
      · split at h
        · rename_i q r hr
          simp only [Option.some.injEq, Prod.mk.injEq] at h
          rw [← h.2]
          exact readNumber_length _ _ _ hr
        · cases h

theorem readString_length (n : Nat) (cs : List Char) (acc : List Nat) (s : JsString)
    (rest : List Char)
    (hn : cs.length ≤ n) (h : readString cs acc = some (s, rest)) :
    rest.length ≤ cs.length := by
  induction n generalizing cs acc with
  | zero =>
    cases cs with
    | nil => simp [readString] at h
    | cons c cs => simp at hn
  | succ n ih =>
    cases cs with
    | nil => simp [readString] at h
    | cons c cs =>
      simp only [List.length_cons, Nat.add_le_add_iff_right] at hn
      unfold readString at h
      split at h
      · simp only [Option.some.injEq, Prod.mk.injEq] at h
        rw [← h.2]
        simp
      · split at h
        · split at h
          · cases h
          · rename_i e cs1
            simp only [List.length_cons] at hn ⊢
            split at h
            · split at h
              · rename_i h1 h2 h3 h4 cs2
                split at h
                · have := ih cs2 _ (by simp only [List.length_cons] at hn; omega) h
                  simp only [List.length_cons]
                  omega
                · cases h
              · cases h
            · split at h
              · have := ih cs1 _ (by omega) h
                omega
              · cases h
        · split at h
          · cases h
          · have := ih cs _ hn h
            simp only [List.length_cons]
            omega

/-- What the three mutually recursive readers leave is no longer than what they were given. -/
theorem read_length (fuel : Nat) :
    (∀ cs v rest, readValue fuel cs = some (v, rest) → rest.length ≤ cs.length) ∧
    (∀ cs acc v rest, readElements fuel cs acc = some (v, rest) → rest.length ≤ cs.length) ∧
    (∀ cs acc v rest, readMembers fuel cs acc = some (v, rest) → rest.length ≤ cs.length) := by
  induction fuel with
  | zero =>
    refine ⟨?_, ?_, ?_⟩ <;> intros <;> simp_all [readValue, readElements, readMembers]
  | succ fuel ih =>
    obtain ⟨ihV, ihE, ihM⟩ := ih
    refine ⟨?_, ?_, ?_⟩
    · intro cs v rest h
      unfold readValue at h
      split at h
      · cases h
      · rename_i c r0 hws
        have l0 := skipWhitespace_cons_length _ _ _ hws
        split at h
        · split at h
          · cases h
          · rename_i d r1 hws1
            have l1 := skipWhitespace_cons_length _ _ _ hws1
            split at h
            · simp only [Option.some.injEq, Prod.mk.injEq] at h
              rw [← h.2]
              omega
            · have := ihM _ _ _ _ h
              simp only [List.length_cons] at this
              omega
        · split at h
          · split at h
            · cases h
            · rename_i d r1 hws1
              have l1 := skipWhitespace_cons_length _ _ _ hws1
              split at h
              · simp only [Option.some.injEq, Prod.mk.injEq] at h
                rw [← h.2]
                omega
              · have := ihE _ _ _ _ h
                simp only [List.length_cons] at this
                omega
          · split at h
            · split at h
              · rename_i s r1 hs
                have := readString_length _ _ _ _ _ (Nat.le_refl _) hs
                simp only [Option.some.injEq, Prod.mk.injEq] at h
                rw [← h.2]
                omega
              · cases h
            · have := readAtom_length _ _ _ h
              simp only [List.length_cons] at this
              omega
    · intro cs acc v rest h
      unfold readElements at h
      split at h
      · cases h
      · rename_i v1 r0 hv
        have l0 := ihV _ _ _ hv
        split at h
        · cases h
        · rename_i c r1 hws
          have l1 := skipWhitespace_cons_length _ _ _ hws
          split at h
          · have := ihE _ _ _ _ h
            omega
          · split at h
            · simp only [Option.some.injEq, Prod.mk.injEq] at h
              rw [← h.2]
              omega
            · cases h
    · intro cs acc v rest h
      unfold readMembers at h
      split at h
      · cases h
      · rename_i q r0 hws
        have l0 := skipWhitespace_cons_length _ _ _ hws
        split at h
        · split at h
          · cases h
          · rename_i k r1 hs
            have l1 := readString_length _ _ _ _ _ (Nat.le_refl _) hs
            split at h
            · cases h
            · rename_i c r2 hws2
              have l2 := skipWhitespace_cons_length _ _ _ hws2
              split at h
              · split at h
                · cases h
                · rename_i v1 r3 hv
                  have l3 := ihV _ _ _ hv
                  split at h
                  · cases h
                  · rename_i d r4 hws4
                    have l4 := skipWhitespace_cons_length _ _ _ hws4
                    split at h
                    · have := ihM _ _ _ _ h
                      omega
                    · split at h
                      · simp only [Option.some.injEq, Prod.mk.injEq] at h
                        rw [← h.2]
                        omega
                      · cases h
              · cases h
        · cases h

/-- More fuel never changes a result that was reached. -/
theorem read_mono (fuel : Nat) :
    (∀ cs r, readValue fuel cs = some r → readValue (fuel + 1) cs = some r) ∧
    (∀ cs acc r, readElements fuel cs acc = some r → readElements (fuel + 1) cs acc = some r) ∧
    (∀ cs acc r, readMembers fuel cs acc = some r → readMembers (fuel + 1) cs acc = some r) := by
  induction fuel with
  | zero =>
    refine ⟨?_, ?_, ?_⟩ <;> intros <;> simp_all [readValue, readElements, readMembers]
  | succ fuel ih =>
    obtain ⟨ihV, ihE, ihM⟩ := ih
    refine ⟨?_, ?_, ?_⟩
    · intro cs r h
      unfold readValue at h ⊢
      split at h
      · cases h
      · rename_i c r0 hws
        try simp only [hws]
        split at h
        · rename_i hc
          simp only [hc, if_true]
          split at h
          · cases h
          · rename_i d r1 hws1
            try simp only [hws1]
            split at h
            · rename_i hd
              simp only [hd, if_true]
              exact h
            · rename_i hd
              simp only [hd, if_false]
              exact ihM _ _ _ h
        · rename_i hc
          simp only [hc, if_false]
          split at h
          · rename_i hc2
            simp only [hc2, if_true]
            split at h
            · cases h
            · rename_i d r1 hws1
              try simp only [hws1]
              split at h
              · rename_i hd
                simp only [hd, if_true]
                exact h
              · rename_i hd
                simp only [hd, if_false]
                exact ihE _ _ _ h
          · rename_i hc2
            simp only [hc2, if_false]
            exact h
    · intro cs acc r h
      unfold readElements at h ⊢
      split at h
      · cases h
      · rename_i v1 r0 hv
        simp only [ihV _ _ hv]
        split at h
        · cases h
        · rename_i c r1 hws
          try simp only [hws]
          split at h
          · rename_i hc
            simp only [hc, if_true]
            exact ihE _ _ _ h
          · rename_i hc
            simp only [hc, if_false]
            exact h
    · intro cs acc r h
      unfold readMembers at h ⊢
      split at h
      · cases h
      · rename_i q r0 hws
        try simp only [hws]
        split at h
        · rename_i hq
          simp only [hq, if_true]
          split at h
          · cases h
          · rename_i k r1 hs
            try simp only [hs]
            split at h
            · cases h
            · rename_i c r2 hws2
              try simp only [hws2]
              split at h
              · rename_i hc
                simp only [hc, if_true]
                split at h
                · cases h
                · rename_i v1 r3 hv
                  simp only [ihV _ _ hv]
                  split at h
                  · cases h
                  · rename_i d r4 hws4
                    try simp only [hws4]
                    split at h
                    · rename_i hd
                      simp only [hd, if_true]
                      exact ihM _ _ _ h
                    · rename_i hd
                      simp only [hd, if_false]
                      exact h
              · cases h
        · cases h

/-- Beyond twice the length of the input (plus one, or plus two inside an array or an object),
one more unit of fuel changes nothing, whether the input is JSON or not. -/
theorem read_stable (fuel : Nat) :
    (∀ cs, 2 * cs.length + 1 ≤ fuel → readValue (fuel + 1) cs = readValue fuel cs) ∧
    (∀ cs acc, 2 * cs.length + 2 ≤ fuel →
      readElements (fuel + 1) cs acc = readElements fuel cs acc) ∧
    (∀ cs acc, 2 * cs.length + 2 ≤ fuel →
      readMembers (fuel + 1) cs acc = readMembers fuel cs acc) := by
  induction fuel with
  | zero =>
    refine ⟨?_, ?_, ?_⟩ <;> intros <;> omega
  | succ fuel ih =>
    obtain ⟨ihV, ihE, ihM⟩ := ih
    refine ⟨?_, ?_, ?_⟩
    · intro cs hb
      unfold readValue
      split
      · rfl
      · rename_i c r0 hws
        have l0 := skipWhitespace_cons_length _ _ _ hws
        by_cases hc : c = '\x7b'
        · simp only [hc, if_true]
          split
          · rfl
          · rename_i d r1 hws1
            have l1 := skipWhitespace_cons_length _ _ _ hws1
            by_cases hd : d = '\x7d'
            · simp only [hd, if_true]
            · simp only [hd, if_false]
              exact ihM _ _ (by simp only [List.length_cons]; omega)
        · simp only [hc, if_false]
          by_cases hc2 : c = '['
          · simp only [hc2, if_true]
            split
            · rfl
            · rename_i d r1 hws1
              have l1 := skipWhitespace_cons_length _ _ _ hws1
              by_cases hd : d = ']'
              · simp only [hd, if_true]
              · simp only [hd, if_false]
                exact ihE _ _ (by simp only [List.length_cons]; omega)
          · simp only [hc2, if_false]
    · intro cs acc hb
      unfold readElements
      rw [ihV cs (by omega)]
      split
      · rfl
      · rename_i v1 r0 hv
        have l0 := (read_length fuel).1 _ _ _ hv
        split
        · rfl
        · rename_i c r1 hws
          have l1 := skipWhitespace_cons_length _ _ _ hws
          by_cases hc : c = ','
          · simp only [hc, if_true]
            exact ihE _ _ (by omega)
          · simp only [hc, if_false]
    · intro cs acc hb
      unfold readMembers
      split
      · rfl
      · rename_i q r0 hws
        have l0 := skipWhitespace_cons_length _ _ _ hws
        by_cases hq : q = '"'
        · simp only [hq, if_true]
          split
          · rfl
          · rename_i k r1 hs
            have l1 := readString_length _ _ _ _ _ (Nat.le_refl _) hs
            split
            · rfl
            · rename_i c r2 hws2
              have l2 := skipWhitespace_cons_length _ _ _ hws2
              by_cases hc : c = ':'
              · simp only [hc, if_true]
                rw [ihV r2 (by omega)]
                split
                · rfl
                · rename_i v1 r3 hv
                  have l3 := (read_length fuel).1 _ _ _ hv
                  split
                  · rfl
                  · rename_i d r4 hws4
                    have l4 := skipWhitespace_cons_length _ _ _ hws4
                    by_cases hd : d = ','
                    · simp only [hd, if_true]
                      exact ihM _ _ (by omega)
                    · simp only [hd, if_false]
              · simp only [hc, if_false]
        · simp only [hq, if_false]

theorem readValue_stable (cs : List Char) (extra : Nat) :
    readValue (2 * cs.length + 1 + extra) cs = readValue (2 * cs.length + 1) cs := by
  induction extra with
  | zero => rfl
  | succ extra ih =>
    rw [← ih]
    exact (read_stable (2 * cs.length + 1 + extra)).1 cs (by omega)

theorem readValue_mono (fuel extra : Nat) (cs : List Char) (r : JsValue × List Char)
    (h : readValue fuel cs = some r) : readValue (fuel + extra) cs = some r := by
  induction extra with
  | zero => exact h
  | succ extra ih => exact (read_mono (fuel + extra)).1 cs r ih

/-- The fuel `JSON.parse` gives `readValue` decides nothing: with any amount of fuel that lets
`readValue` reach a result, and with any larger amount, the result is the one `JSON.parse`
works with. -/
theorem readValue_fuel (text : String) (fuel : Nat) :
    (∀ r, readValue fuel text.data = some r →
      readValue (2 * text.length + 2) text.data = some r) ∧
    (2 * text.length + 2 ≤ fuel →
      readValue fuel text.data = readValue (2 * text.length + 2) text.data) := by
  have hlen : text.length = text.data.length := rfl
  have hst : ∀ extra, readValue (2 * text.length + 1 + extra) text.data =
      readValue (2 * text.length + 1) text.data := by
    rw [hlen]
    exact readValue_stable text.data
  refine ⟨fun r h => ?_, fun hle => ?_⟩
  · have hm := readValue_mono fuel (2 * text.length + 2) text.data r h
    have e1 : fuel + (2 * text.length + 2) = 2 * text.length + 1 + (fuel + 1) := by omega
    rw [e1, hst] at hm
    have e2 : 2 * text.length + 2 = 2 * text.length + 1 + 1 := rfl
    rw [e2, hst]
    exact hm
  · obtain ⟨extra, rfl⟩ : ∃ extra, fuel = 2 * text.length + 1 + extra :=
      ⟨fuel - (2 * text.length + 1), by omega⟩
    rw [hst]
    have e2 : 2 * text.length + 2 = 2 * text.length + 1 + 1 := rfl
    rw [e2, hst]

end JSON

/-! ## The reader returns what the text denotes -/

namespace JSON

theorem isWhitespace_of_mem (ws : List Char) (h : IsWhitespace ws) (c : Char) (hc : c ∈ ws) :
    isWhitespace c = true := by
  rcases h c hc with rfl | rfl | rfl | rfl <;> rfl

theorem skipWhitespace_append (ws rest : List Char) (h : IsWhitespace ws) :
    skipWhitespace (ws ++ rest) = skipWhitespace rest := by
  induction ws with
  | nil => rfl
  | cons c ws ih =>
    have hc : isWhitespace c = true := isWhitespace_of_mem _ h c (List.mem_cons_self _ _)
    have hws : IsWhitespace ws := fun d hd => h d (List.mem_cons_of_mem _ hd)
    simp only [List.cons_append, skipWhitespace, hc, if_true]
    exact ih hws

theorem skipWhitespace_cons (c : Char) (rest : List Char) (h : isWhitespace c = false) :
    skipWhitespace (c :: rest) = c :: rest := by
  simp [skipWhitespace, h]

theorem skipWhitespace_idem (cs : List Char) :
    skipWhitespace (skipWhitespace cs) = skipWhitespace cs := by
  induction cs with
  | nil => rfl
  | cons c cs ih =>
    by_cases hc : isWhitespace c = true
    · simp only [skipWhitespace, hc, if_true]
      exact ih
    · simp [skipWhitespace, hc]

theorem skipWhitespace_all (ws : List Char) (h : IsWhitespace ws) : skipWhitespace ws = [] := by
  have := skipWhitespace_append ws [] h
  simpa [skipWhitespace] using this

theorem digit?_of (c : Char) (h : IsDigit c) : digit? c = some (c.toNat - 48) := by
  unfold digit?
  exact if_pos h

theorem digit?_none (c : Char) (h : ¬ IsDigit c) : digit? c = none := by
  unfold digit?
  exact if_neg h

theorem readDigits_append (ds rest : List Char) (acc n : Nat) (hd : ∀ c ∈ ds, IsDigit c)
    (hr : ∀ c tl, rest = c :: tl → ¬ IsDigit c) :
    readDigits (ds ++ rest) acc n =
      (ds.foldl (fun a c => 10 * a + (c.toNat - 48)) acc, n + ds.length, rest) := by
  induction ds generalizing acc n with
  | nil =>
    cases rest with
    | nil => rfl
    | cons c tl =>
      simp only [List.nil_append, readDigits, digit?_none c (hr c tl rfl), List.foldl_nil,
        List.length_nil, Nat.add_zero]
  | cons d ds ih =>
    simp only [List.cons_append, readDigits, digit?_of d (hd d (List.mem_cons_self _ _)),
      List.foldl_cons, List.length_cons, List.append_eq]
    rw [ih _ _ (fun c hc => hd c (List.mem_cons_of_mem _ hc))]
    simp only [Prod.mk.injEq, true_and, and_true]
    omega

theorem readDigits_digits (ds rest : List Char) (hd : IsDigits ds)
    (hr : ∀ c tl, rest = c :: tl → ¬ IsDigit c) :
    ∃ k, readDigits (ds ++ rest) 0 0 = (decimal ds, k + 1, rest) := by
  rw [readDigits_append ds rest 0 0 hd.2 hr]
  cases ds with
  | nil => exact absurd rfl hd.1
  | cons d ds => exact ⟨ds.length, by simp [decimal, Nat.add_comm]⟩

theorem isDigit_ne (c d : Char) (hc : IsDigit c) (hd : ¬ IsDigit d) : c ≠ d := by
  rintro rfl
  exact hd hc

theorem integerPart_head (i : List Char) (h : IntegerPart i) :
    ∃ c tl, i = c :: tl ∧ IsDigit c := by
  cases h with
  | zero => exact ⟨'0', [], rfl, by decide⟩
  | digits d ds hd _ _ => exact ⟨d, ds, rfl, hd⟩

theorem readInt_complete (i rest : List Char) (h : IntegerPart i)
    (hr : ∀ c tl, rest = c :: tl → ¬ IsDigit c) :
    readInt (i ++ rest) = some (decimal i, rest) := by
  cases h with
  | zero => rfl
  | digits d ds hd h0 hds =>
    have hall : IsDigits (d :: ds) :=
      ⟨by simp, fun c hc => by
        rcases List.mem_cons.1 hc with rfl | hc
        · exact hd
        · exact hds c hc⟩
    obtain ⟨k, hk⟩ := readDigits_digits (d :: ds) rest hall hr
    simp only [List.cons_append] at hk ⊢
    simp only [readInt, h0, if_false, hk]

theorem readFraction_complete (f rest : List Char) (fv fn : Nat) (h : FractionPart f fv fn)
    (hr : ∀ c tl, rest = c :: tl → ¬ IsDigit c ∧ c ≠ '.') :
    readFraction (f ++ rest) = some (fv, fn, rest) := by
  cases h with
  | absent =>
    cases rest with
    | nil => rfl
    | cons c tl => simp only [List.nil_append, readFraction, (hr c tl rfl).2, if_false]
  | digits ds hds =>
    obtain ⟨k, hk⟩ := readDigits_digits ds rest hds (fun c tl e => (hr c tl e).1)
    have hlen : ds.length = k + 1 := by
      have := readDigits_append ds rest 0 0 hds.2 (fun c tl e => (hr c tl e).1)
      rw [hk] at this
      simp only [Prod.mk.injEq, and_true, true_and] at this
      omega
    simp only [List.cons_append, readFraction, if_true, hk, hlen]

theorem readExpDigits_complete (neg : Bool) (ds rest : List Char) (hds : IsDigits ds)
    (hr : ∀ c tl, rest = c :: tl → ¬ IsDigit c) :
    readExpDigits neg (ds ++ rest) =
      some (if neg then -(decimal ds : Int) else (decimal ds : Int), rest) := by
  obtain ⟨k, hk⟩ := readDigits_digits ds rest hds hr
  simp only [readExpDigits, hk]

theorem isDigits_head (ds : List Char) (h : IsDigits ds) : ∃ c tl, ds = c :: tl ∧ IsDigit c := by
  cases ds with
  | nil => exact absurd rfl h.1
  | cons c tl => exact ⟨c, tl, rfl, h.2 c (List.mem_cons_self _ _)⟩

theorem readExponent_complete (x rest : List Char) (e : Int) (h : ExponentPart x e)
    (hr : Terminated rest) : readExponent (x ++ rest) = some (e, rest) := by
  have hnd : ∀ c tl, rest = c :: tl → ¬ IsDigit c := fun c tl hc => (hr c tl hc).1
  cases h with
  | absent =>
    cases rest with
    | nil => rfl
    | cons c tl =>
      obtain ⟨-, -, h1, h2⟩ := hr c tl rfl
      simp only [List.nil_append, readExponent, h1, h2, or_self, if_false]
  | unsigned ec ds hec hds =>
    obtain ⟨c, tl, rfl, hc⟩ := isDigits_head ds hds
    have h1 : c ≠ '+' := isDigit_ne c '+' hc (by decide)
    have h2 : c ≠ '-' := isDigit_ne c '-' hc (by decide)
    have := readExpDigits_complete false (c :: tl) rest hds hnd
    simp only [List.cons_append] at this
    simp only [List.cons_append, readExponent, hec, if_true, readSignedExp, h1, h2, if_false,
      this]
    rfl
  | plus ec ds hec hds =>
    have := readExpDigits_complete false ds rest hds hnd
    simp only [List.cons_append, readExponent, hec, if_true, readSignedExp, this]
    rfl
  | minus ec ds hec hds =>
    have := readExpDigits_complete true ds rest hds hnd
    have h1 : ('-' : Char) ≠ '+' := by decide
    simp only [List.cons_append, readExponent, hec, if_true, readSignedExp, h1, if_false, this]

theorem exponent_next (x rest : List Char) (e : Int) (h : ExponentPart x e)
    (hr : Terminated rest) : ∀ c tl, x ++ rest = c :: tl → ¬ IsDigit c ∧ c ≠ '.' := by
  intro c tl hc
  cases h with
  | absent => exact ⟨(hr c tl hc).1, (hr c tl hc).2.1⟩
  | unsigned ec ds hec _ =>
    simp only [List.cons_append, List.cons.injEq] at hc
    rw [← hc.1]
    rcases hec with rfl | rfl <;> exact ⟨by decide, by decide⟩
  | plus ec ds hec _ =>
    simp only [List.cons_append, List.cons.injEq] at hc
    rw [← hc.1]
    rcases hec with rfl | rfl <;> exact ⟨by decide, by decide⟩
  | minus ec ds hec _ =>
    simp only [List.cons_append, List.cons.injEq] at hc
    rw [← hc.1]
    rcases hec with rfl | rfl <;> exact ⟨by decide, by decide⟩

theorem fraction_next (f rest : List Char) (fv fn : Nat) (h : FractionPart f fv fn)
    (hr : ∀ c tl, rest = c :: tl → ¬ IsDigit c ∧ c ≠ '.') :
    ∀ c tl, f ++ rest = c :: tl → ¬ IsDigit c := by
  intro c tl hc
  cases h with
  | absent => exact (hr c tl hc).1
  | digits ds _ =>
    simp only [List.cons_append, List.cons.injEq] at hc
    rw [← hc.1]
    decide

theorem readUnsigned_complete (negative : Bool) (i f x rest : List Char) (fv fn : Nat) (e : Int)
    (hi : IntegerPart i) (hf : FractionPart f fv fn) (hx : ExponentPart x e)
    (hr : Terminated rest) :
    readUnsigned negative (i ++ f ++ x ++ rest) =
      some (JsNumber.ofDecimal negative (decimal i) fv fn e, rest) := by
  have h3 := readExponent_complete x rest e hx hr
  have n3 := exponent_next x rest e hx hr
  have h2 := readFraction_complete f (x ++ rest) fv fn hf n3
  have n2 := fraction_next f (x ++ rest) fv fn hf n3
  have h1 := readInt_complete i (f ++ (x ++ rest)) hi n2
  simp only [List.append_assoc, readUnsigned, h1, h2, h3]

theorem readNumber_complete (cs rest : List Char) (n : JsNumber) (h : Numeral cs n)
    (hr : Terminated rest) : readNumber (cs ++ rest) = some (n, rest) := by
  cases h with
  | positive i f x fv fn e hi hf hx =>
    have := readUnsigned_complete false i f x rest fv fn e hi hf hx hr
    obtain ⟨c, tl, rfl, hc⟩ := integerPart_head i hi
    have h1 : c ≠ '-' := isDigit_ne c '-' hc (by decide)
    simp only [List.cons_append] at this ⊢
    simp only [readNumber, h1, if_false, this]
  | negative i f x fv fn e hi hf hx =>
    have := readUnsigned_complete true i f x rest fv fn e hi hf hx hr
    simp only [List.cons_append, readNumber, if_true, this]

theorem numeral_head (cs : List Char) (n : JsNumber) (h : Numeral cs n) :
    ∃ c tl, cs = c :: tl ∧ (IsDigit c ∨ c = '-') := by
  cases h with
  | positive i f x fv fn e hi hf hx =>
    obtain ⟨c, tl, rfl, hc⟩ := integerPart_head i hi
    exact ⟨c, tl ++ f ++ x, by simp, Or.inl hc⟩
  | negative i f x fv fn e hi hf hx => exact ⟨'-', _, rfl, Or.inr rfl⟩

theorem escapeUnit?_of (e : Char) (u : Nat) (h : Escape e u) :
    e ≠ 'u' ∧ escapeUnit? e = some u := by
  cases h <;> exact ⟨by decide, rfl⟩

theorem readString_quote (rest : List Char) (acc : List Nat) :
    readString ('"' :: rest) acc = some (⟨acc.reverse⟩, rest) := by
  conv_lhs => unfold readString
  simp

theorem readString_char (c : Char) (cs : List Char) (acc : List Nat) (h1 : c ≠ '"')
    (h2 : c ≠ '\\') (h3 : ¬ c.toNat < 32) :
    readString (c :: cs) acc = readString cs ((JsString.utf16 c).reverse ++ acc) := by
  conv_lhs => unfold readString
  simp only [h1, h2, h3, if_false]

theorem readString_escape (e : Char) (u : Nat) (cs : List Char) (acc : List Nat) (hu : e ≠ 'u')
    (he : escapeUnit? e = some u) :
    readString ('\\' :: e :: cs) acc = readString cs (u :: acc) := by
  conv_lhs => unfold readString
  have hq : ('\\' : Char) ≠ '"' := by decide
  simp only [hq, if_false, if_true, hu, he]

theorem readString_unicode (h1 h2 h3 h4 : Char) (u : Nat) (cs : List Char) (acc : List Nat)
    (he : readHex4 h1 h2 h3 h4 = some u) :
    readString ('\\' :: 'u' :: h1 :: h2 :: h3 :: h4 :: cs) acc = readString cs (u :: acc) := by
  conv_lhs => unfold readString
  have hq : ('\\' : Char) ≠ '"' := by decide
  simp only [hq, if_false, if_true, he]

theorem readString_complete (body : List Char) (us : List Nat) (h : StringBody body us) :
    ∀ (acc : List Nat) (rest : List Char),
      readString (body ++ '"' :: rest) acc = some (⟨acc.reverse ++ us⟩, rest) := by
  induction h with
  | nil =>
    intro acc rest
    simp [readString_quote]
  | char c cs us h1 h2 h3 _ ih =>
    intro acc rest
    rw [List.cons_append, readString_char c _ acc h1 h2 (by omega), ih]
    simp
  | escape e u cs us he _ ih =>
    intro acc rest
    obtain ⟨hu, hesc⟩ := escapeUnit?_of e u he
    rw [List.cons_append, List.cons_append, readString_escape e u _ acc hu hesc, ih]
    simp
  | unicode h1 h2 h3 h4 u cs us hhex _ ih =>
    intro acc rest
    simp only [List.cons_append]
    rw [readString_unicode h1 h2 h3 h4 u _ acc hhex, ih]
    simp

theorem readWord_self (word rest : List Char) : readWord word (word ++ rest) = some rest := by
  induction word with
  | nil => rfl
  | cons w ws ih => simp [readWord, ih]

theorem readAtom_number (cs rest : List Char) (n : JsNumber) (h : Numeral cs n)
    (hr : Terminated rest) : readAtom (cs ++ rest) = some (.number n, rest) := by
  have hnum := readNumber_complete cs rest n h hr
  obtain ⟨c, tl, rfl, hc⟩ := numeral_head cs n h
  have ht : ('t' : Char) ≠ c := by
    rcases hc with hc | rfl
    · exact fun e => absurd (e ▸ hc) (by decide)
    · decide
  have hf : ('f' : Char) ≠ c := by
    rcases hc with hc | rfl
    · exact fun e => absurd (e ▸ hc) (by decide)
    · decide
  have hn : ('n' : Char) ≠ c := by
    rcases hc with hc | rfl
    · exact fun e => absurd (e ▸ hc) (by decide)
    · decide
  simp only [List.cons_append] at hnum ⊢
  simp only [readAtom, readWord, ht, hf, hn, if_false, hnum]

theorem readValue_skip (fuel : Nat) (cs : List Char) :
    readValue fuel (skipWhitespace cs) = readValue fuel cs := by
  cases fuel with
  | zero => simp [readValue]
  | succ fuel => simp only [readValue, skipWhitespace_idem]

theorem readElements_skip (fuel : Nat) (cs : List Char) (acc : List JsValue) :
    readElements fuel (skipWhitespace cs) acc = readElements fuel cs acc := by
  cases fuel with
  | zero => simp [readElements]
  | succ fuel => simp only [readElements, readValue_skip]

theorem readMembers_skip (fuel : Nat) (cs : List Char) (acc : List (JsString × JsValue)) :
    readMembers fuel (skipWhitespace cs) acc = readMembers fuel cs acc := by
  cases fuel with
  | zero => simp [readMembers]
  | succ fuel => simp only [readMembers, skipWhitespace_idem]

theorem readValue_append_whitespace (fuel : Nat) (ws cs : List Char) (h : IsWhitespace ws) :
    readValue fuel (ws ++ cs) = readValue fuel cs := by
  rw [← readValue_skip fuel (ws ++ cs), skipWhitespace_append ws cs h, readValue_skip]

theorem readElements_mono (fuel extra : Nat) (cs : List Char) (acc : List JsValue)
    (r : JsValue × List Char) (h : readElements fuel cs acc = some r) :
    readElements (fuel + extra) cs acc = some r := by
  induction extra with
  | zero => exact h
  | succ extra ih => exact (read_mono (fuel + extra)).2.1 cs acc r ih

theorem readMembers_mono (fuel extra : Nat) (cs : List Char) (acc : List (JsString × JsValue))
    (r : JsValue × List Char) (h : readMembers fuel cs acc = some r) :
    readMembers (fuel + extra) cs acc = some r := by
  induction extra with
  | zero => exact h
  | succ extra ih => exact (read_mono (fuel + extra)).2.2 cs acc r ih

theorem terminated_whitespace (ws rest : List Char) (h : IsWhitespace ws)
    (hr : Terminated rest) : Terminated (ws ++ rest) := by
  cases ws with
  | nil => exact hr
  | cons w ws =>
    intro c tl hc
    simp only [List.cons_append, List.cons.injEq] at hc
    rw [← hc.1]
    rcases h w (List.mem_cons_self _ _) with rfl | rfl | rfl | rfl <;>
      exact ⟨by decide, by decide, by decide, by decide⟩

theorem terminated_nil : Terminated [] := by
  intro c tl hc
  cases hc

theorem terminated_comma (rest : List Char) : Terminated (',' :: rest) := by
  intro c tl hc
  simp only [List.cons.injEq] at hc
  rw [← hc.1]
  exact ⟨by decide, by decide, by decide, by decide⟩

theorem terminated_bracket (rest : List Char) : Terminated (']' :: rest) := by
  intro c tl hc
  simp only [List.cons.injEq] at hc
  rw [← hc.1]
  exact ⟨by decide, by decide, by decide, by decide⟩

theorem terminated_brace (rest : List Char) : Terminated ('\x7d' :: rest) := by
  intro c tl hc
  simp only [List.cons.injEq] at hc
  rw [← hc.1]
  exact ⟨by decide, by decide, by decide, by decide⟩

theorem readValue_atom (fuel : Nat) (c : Char) (tl : List Char) (hw : isWhitespace c = false)
    (h1 : c ≠ '\x7b') (h2 : c ≠ '[') (h3 : c ≠ '"') :
    readValue (fuel + 1) (c :: tl) = readAtom (c :: tl) := by
  simp only [readValue, skipWhitespace_cons c tl hw, h1, h2, h3, if_false]

theorem readValue_string (fuel : Nat) (body rest : List Char) (us : List Nat)
    (h : StringBody body us) :
    readValue (fuel + 1) ('"' :: (body ++ '"' :: rest)) = some (.string ⟨us⟩, rest) := by
  have hw : isWhitespace '"' = false := by decide
  have h1 : ('"' : Char) ≠ '\x7b' := by decide
  have h2 : ('"' : Char) ≠ '[' := by decide
  simp only [readValue, skipWhitespace_cons _ _ hw, h1, h2, if_false, if_true,
    readString_complete body us h [] rest, List.reverse_nil, List.nil_append]

theorem readValue_emptyArray (fuel : Nat) (ws rest : List Char) (h : IsWhitespace ws) :
    readValue (fuel + 1) ('[' :: (ws ++ ']' :: rest)) = some (.array [], rest) := by
  have hw : isWhitespace '[' = false := by decide
  have hw2 : isWhitespace ']' = false := by decide
  have h1 : ('[' : Char) ≠ '\x7b' := by decide
  simp only [readValue, skipWhitespace_cons _ _ hw, h1, if_false, if_true,
    skipWhitespace_append ws _ h, skipWhitespace_cons _ _ hw2]

theorem readValue_emptyObject (fuel : Nat) (ws rest : List Char) (h : IsWhitespace ws) :
    readValue (fuel + 1) ('\x7b' :: (ws ++ '\x7d' :: rest)) = some (.object [], rest) := by
  have hw : isWhitespace '\x7b' = false := by decide
  have hw2 : isWhitespace '\x7d' = false := by decide
  simp only [readValue, skipWhitespace_cons _ _ hw, if_true,
    skipWhitespace_append ws _ h, skipWhitespace_cons _ _ hw2]

theorem readValue_array (fuel : Nat) (ws tl sfx : List Char) (c : Char) (h : IsWhitespace ws)
    (hw : isWhitespace c = false) (hc : c ≠ ']') :
    readValue (fuel + 1) ('[' :: (ws ++ c :: tl ++ sfx)) =
      readElements fuel (ws ++ c :: tl ++ sfx) [] := by
  have hw0 : isWhitespace '[' = false := by decide
  have h1 : ('[' : Char) ≠ '\x7b' := by decide
  have hskip : skipWhitespace (ws ++ c :: tl ++ sfx) = c :: (tl ++ sfx) := by
    rw [List.append_assoc, skipWhitespace_append ws _ h, List.cons_append,
      skipWhitespace_cons c _ hw]
  rw [← readElements_skip fuel (ws ++ c :: tl ++ sfx), hskip]
  simp only [readValue, skipWhitespace_cons _ _ hw0, h1, if_false, if_true, hskip, hc]

theorem readValue_object (fuel : Nat) (ws tl sfx : List Char) (h : IsWhitespace ws) :
    readValue (fuel + 1) ('\x7b' :: (ws ++ '"' :: tl ++ sfx)) =
      readMembers fuel (ws ++ '"' :: tl ++ sfx) [] := by
  have hw0 : isWhitespace '\x7b' = false := by decide
  have hw : isWhitespace '"' = false := by decide
  have hc : ('"' : Char) ≠ '\x7d' := by decide
  have hskip : skipWhitespace (ws ++ '"' :: tl ++ sfx) = '"' :: (tl ++ sfx) := by
    rw [List.append_assoc, skipWhitespace_append ws _ h, List.cons_append,
      skipWhitespace_cons _ _ hw]
  rw [← readMembers_skip fuel (ws ++ '"' :: tl ++ sfx), hskip]
  simp only [readValue, skipWhitespace_cons _ _ hw0, if_true, hskip, hc, if_false]

/-- One step of `readElements`: a value, whitespace, then a comma or the closing bracket. -/
theorem readElements_step (fuel : Nat) (cs ws rest : List Char) (acc : List JsValue)
    (v : JsValue) (c : Char) (h : readValue fuel cs = some (v, ws ++ c :: rest))
    (hws : IsWhitespace ws) (hw : isWhitespace c = false) :
    readElements (fuel + 1) cs acc =
      if c = ',' then readElements fuel rest (v :: acc)
      else if c = ']' then some (.array (v :: acc).reverse, rest)
      else none := by
  simp only [readElements, h, skipWhitespace_append ws _ hws, skipWhitespace_cons c _ hw]

/-- One step of `readMembers`: a key, a colon, a value, then a comma or the closing brace. -/
theorem readMembers_step (fuel : Nat) (ws1 key ws2 cs ws4 rest : List Char) (k : List Nat)
    (acc : List (JsString × JsValue)) (v : JsValue) (c : Char)
    (h1 : IsWhitespace ws1) (h2 : IsWhitespace ws2) (hk : StringBody key k)
    (h : readValue fuel cs = some (v, ws4 ++ c :: rest))
    (h4 : IsWhitespace ws4) (hw : isWhitespace c = false) :
    readMembers (fuel + 1) (ws1 ++ '"' :: (key ++ '"' :: (ws2 ++ ':' :: cs))) acc =
      if c = ',' then readMembers fuel rest (insertField ⟨k⟩ v acc)
      else if c = '\x7d' then some (.object (insertField ⟨k⟩ v acc), rest)
      else none := by
  have hq : isWhitespace '"' = false := by decide
  have hcolon : isWhitespace ':' = false := by decide
  simp only [readMembers, skipWhitespace_append ws1 _ h1, skipWhitespace_cons _ _ hq, if_true,
    readString_complete key k hk [] _, List.reverse_nil, List.nil_append,
    skipWhitespace_append ws2 _ h2, skipWhitespace_cons _ _ hcolon, h,
    skipWhitespace_append ws4 _ h4, skipWhitespace_cons c _ hw]

theorem value_head (cs : List Char) (v : JsValue) (h : Complete cs (.value v)) :
    ∃ c tl, cs = c :: tl ∧ isWhitespace c = false ∧ c ≠ ']' := h.1

theorem isDigit_not_whitespace (c : Char) (h : IsDigit c) :
    isWhitespace c = false ∧ c ≠ ']' ∧ c ≠ '\x7b' ∧ c ≠ '[' ∧ c ≠ '"' := by
  refine ⟨?_, ?_, ?_, ?_, ?_⟩
  · cases hw : isWhitespace c with
    | false => rfl
    | true =>
      simp only [isWhitespace, Bool.or_eq_true, decide_eq_true_eq] at hw
      rcases hw with ((rfl | rfl) | rfl) | rfl <;> exact absurd h (by decide)
  all_goals
    rintro rfl
    exact absurd h (by decide)

/-- The readers are complete for the grammar: on a text that denotes an item they return
it. -/
theorem read_complete (cs : List Char) (item : Item) (h : Denotes cs item) :
    Complete cs item := by
  induction h with
  | null =>
    refine ⟨⟨'n', _, rfl, by decide, by decide⟩, fun rest _ => ⟨1, ?_⟩⟩
    rw [List.cons_append,
      readValue_atom 0 'n' _ (by decide) (by decide) (by decide) (by decide)]
    rfl
  | true =>
    refine ⟨⟨'t', _, rfl, by decide, by decide⟩, fun rest _ => ⟨1, ?_⟩⟩
    rw [List.cons_append,
      readValue_atom 0 't' _ (by decide) (by decide) (by decide) (by decide)]
    rfl
  | false =>
    refine ⟨⟨'f', _, rfl, by decide, by decide⟩, fun rest _ => ⟨1, ?_⟩⟩
    rw [List.cons_append,
      readValue_atom 0 'f' _ (by decide) (by decide) (by decide) (by decide)]
    rfl
  | number cs n hn =>
    obtain ⟨c, tl, rfl, hc⟩ := numeral_head cs n hn
    have hc' : isWhitespace c = false ∧ c ≠ ']' ∧ c ≠ '\x7b' ∧ c ≠ '[' ∧ c ≠ '"' := by
      rcases hc with hc | rfl
      · exact isDigit_not_whitespace c hc
      · exact ⟨by decide, by decide, by decide, by decide, by decide⟩
    refine ⟨⟨c, tl, rfl, hc'.1, hc'.2.1⟩, fun rest hr => ⟨1, ?_⟩⟩
    rw [List.cons_append, readValue_atom 0 c _ hc'.1 hc'.2.2.1 hc'.2.2.2.1 hc'.2.2.2.2,
      ← List.cons_append]
    exact readAtom_number _ rest n hn hr
  | string body us hb =>
    refine ⟨⟨'"', _, rfl, by decide, by decide⟩, fun rest _ => ⟨1, ?_⟩⟩
    have := readValue_string 0 body rest us hb
    simpa using this
  | emptyArray ws hws =>
    refine ⟨⟨'[', _, rfl, by decide, by decide⟩, fun rest _ => ⟨1, ?_⟩⟩
    have := readValue_emptyArray 0 ws rest hws
    simpa using this
  | array es vs _ ih =>
    obtain ⟨⟨ws, c, tl, hws, rfl, hw, hc⟩, hread⟩ := ih
    refine ⟨⟨'[', _, rfl, by decide, by decide⟩, fun rest _ => ?_⟩
    obtain ⟨fuel, hf⟩ := hread [] rest
    refine ⟨fuel + 1, ?_⟩
    have := readValue_array fuel ws tl (']' :: rest) c hws hw hc
    simp only [List.cons_append, List.append_assoc, List.nil_append, List.reverse_nil] at this hf ⊢
    rw [this, hf]
  | emptyObject ws hws =>
    refine ⟨⟨'\x7b', _, rfl, by decide, by decide⟩, fun rest _ => ⟨1, ?_⟩⟩
    have := readValue_emptyObject 0 ws rest hws
    simpa using this
  | object ms fs _ ih =>
    obtain ⟨⟨ws, tl, hws, rfl⟩, hread⟩ := ih
    refine ⟨⟨'\x7b', _, rfl, by decide, by decide⟩, fun rest _ => ?_⟩
    obtain ⟨fuel, hf⟩ := hread [] rest
    refine ⟨fuel + 1, ?_⟩
    have := readValue_object fuel ws tl ('\x7d' :: rest) hws
    simp only [List.cons_append, List.append_assoc, List.nil_append] at this hf ⊢
    rw [this, hf]
    rfl
  | lastElement ws1 body ws2 v h1 h2 _ ih =>
    obtain ⟨⟨c, tl, rfl, hw, hc⟩, hread⟩ := ih
    refine ⟨⟨ws1, c, tl ++ ws2, h1, by simp, hw, hc⟩, fun acc rest => ?_⟩
    obtain ⟨fuel, hf⟩ :=
      hread (ws2 ++ ']' :: rest) (terminated_whitespace ws2 _ h2 (terminated_bracket rest))
    refine ⟨fuel + 1, ?_⟩
    have hv : readValue fuel (ws1 ++ (c :: tl) ++ ws2 ++ ']' :: rest) =
        some (v, ws2 ++ ']' :: rest) := by
      rw [List.append_assoc, List.append_assoc, readValue_append_whitespace fuel ws1 _ h1]
      exact hf
    rw [readElements_step fuel _ ws2 rest acc v ']' hv h2 (by decide)]
    simp
  | element ws1 body ws2 es v vs h1 h2 _ _ ih ihs =>
    obtain ⟨⟨c, tl, rfl, hw, hc⟩, hread⟩ := ih
    obtain ⟨-, hreads⟩ := ihs
    refine ⟨⟨ws1, c, tl ++ ws2 ++ ',' :: es, h1, by simp, hw, hc⟩, fun acc rest => ?_⟩
    obtain ⟨f1, hf1⟩ := hread (ws2 ++ ',' :: (es ++ ']' :: rest))
      (terminated_whitespace ws2 _ h2 (terminated_comma _))
    obtain ⟨f2, hf2⟩ := hreads (v :: acc) rest
    refine ⟨f1 + f2 + 1, ?_⟩
    have hv : readValue (f1 + f2) (ws1 ++ (c :: tl) ++ ws2 ++ ',' :: es ++ ']' :: rest) =
        some (v, ws2 ++ ',' :: (es ++ ']' :: rest)) := by
      have e : ws1 ++ (c :: tl) ++ ws2 ++ ',' :: es ++ ']' :: rest =
          ws1 ++ ((c :: tl) ++ (ws2 ++ ',' :: (es ++ ']' :: rest))) := by simp
      rw [e, readValue_append_whitespace (f1 + f2) ws1 _ h1]
      exact readValue_mono f1 f2 _ _ hf1
    rw [readElements_step (f1 + f2) _ ws2 _ acc v ',' hv h2 (by decide)]
    have := readElements_mono f2 f1 _ _ _ hf2
    rw [Nat.add_comm] at this
    simp only [if_true, this]
    simp
  | lastMember ws1 key ws2 ws3 body ws4 k v h1 h2 h3 h4 hk _ ih =>
    obtain ⟨⟨c, tl, rfl, hw, hc⟩, hread⟩ := ih
    refine ⟨⟨ws1, _, h1, by simp only [List.append_assoc, List.cons_append]; rfl⟩,
      fun acc rest => ?_⟩
    obtain ⟨fuel, hf⟩ :=
      hread (ws4 ++ '\x7d' :: rest) (terminated_whitespace ws4 _ h4 (terminated_brace rest))
    refine ⟨fuel + 1, ?_⟩
    have hv : readValue fuel (ws3 ++ ((c :: tl) ++ (ws4 ++ '\x7d' :: rest))) =
        some (v, ws4 ++ '\x7d' :: rest) := by
      rw [readValue_append_whitespace fuel ws3 _ h3]
      exact hf
    have := readMembers_step fuel ws1 key ws2 _ ws4 rest k acc v '\x7d' h1 h2 hk hv h4
      (by decide)
    simp only [List.append_assoc, List.cons_append] at this ⊢
    rw [this]
    simp
  | member ws1 key ws2 ws3 body ws4 ms k v fs h1 h2 h3 h4 hk _ _ ih ihs =>
    obtain ⟨⟨c, tl, rfl, hw, hc⟩, hread⟩ := ih
    obtain ⟨-, hreads⟩ := ihs
    refine ⟨⟨ws1, _, h1, by simp only [List.append_assoc, List.cons_append]; rfl⟩,
      fun acc rest => ?_⟩
    obtain ⟨f1, hf1⟩ := hread (ws4 ++ ',' :: (ms ++ '\x7d' :: rest))
      (terminated_whitespace ws4 _ h4 (terminated_comma _))
    obtain ⟨f2, hf2⟩ := hreads (insertField ⟨k⟩ v acc) rest
    refine ⟨f1 + f2 + 1, ?_⟩
    have hv : readValue (f1 + f2) (ws3 ++ ((c :: tl) ++ (ws4 ++ ',' :: (ms ++ '\x7d' :: rest)))) =
        some (v, ws4 ++ ',' :: (ms ++ '\x7d' :: rest)) := by
      rw [readValue_append_whitespace (f1 + f2) ws3 _ h3]
      exact readValue_mono f1 f2 _ _ hf1
    have := readMembers_step (f1 + f2) ws1 key ws2 _ ws4 _ k acc v ',' h1 h2 hk hv h4
      (by decide)
    have hm := readMembers_mono f2 f1 _ _ _ hf2
    rw [Nat.add_comm] at hm
    simp only [List.append_assoc, List.cons_append] at this ⊢
    rw [this]
    simp only [if_true, hm, List.foldl_cons]

/-- `JSON.parse` returns the value a JSON text encodes. -/
theorem parse_complete (text : String) (v : JsValue) (h : Encodes text v) :
    parse text = some v := by
  obtain ⟨ws1, body, ws2, h1, h2, hd, htext⟩ := h
  obtain ⟨-, hread⟩ := read_complete body (.value v) hd
  obtain ⟨fuel, hf⟩ :=
    hread ws2 (by simpa using terminated_whitespace ws2 [] h2 terminated_nil)
  have hv : readValue fuel text.data = some (v, ws2) := by
    rw [htext, List.append_assoc, readValue_append_whitespace fuel ws1 _ h1]
    simpa using hf
  have := (readValue_fuel text fuel).1 _ hv
  simp only [parse, this, skipWhitespace_all ws2 h2]

end JSON

/-! ## The reader returns only what the text denotes -/

namespace JSON

theorem isWhitespace_cases (c : Char) (h : isWhitespace c = true) :
    c = ' ' ∨ c = '\t' ∨ c = '\n' ∨ c = '\r' := by
  simp only [isWhitespace, Bool.or_eq_true, decide_eq_true_eq] at h
  rcases h with ((h | h) | h) | h
  · exact Or.inl h
  · exact Or.inr (Or.inl h)
  · exact Or.inr (Or.inr (Or.inl h))
  · exact Or.inr (Or.inr (Or.inr h))

theorem isWhitespace_nil : IsWhitespace [] := by
  intro c hc
  cases hc

theorem isWhitespace_cons (c : Char) (ws : List Char) (hc : isWhitespace c = true)
    (h : IsWhitespace ws) : IsWhitespace (c :: ws) := by
  intro d hd
  rcases List.mem_cons.1 hd with rfl | hd
  · exact isWhitespace_cases _ hc
  · exact h d hd

theorem skipWhitespace_split (cs : List Char) :
    ∃ ws, IsWhitespace ws ∧ cs = ws ++ skipWhitespace cs := by
  induction cs with
  | nil => exact ⟨[], isWhitespace_nil, rfl⟩
  | cons c cs ih =>
    by_cases hc : isWhitespace c = true
    · obtain ⟨ws, hws, e⟩ := ih
      refine ⟨c :: ws, isWhitespace_cons c ws hc hws, ?_⟩
      simp only [skipWhitespace, hc, if_true, List.cons_append]
      rw [← e]
    · refine ⟨[], isWhitespace_nil, ?_⟩
      simp [skipWhitespace, hc]

theorem digit?_some (c : Char) (d : Nat) (h : digit? c = some d) :
    IsDigit c ∧ d = c.toNat - 48 := by
  unfold digit? at h
  by_cases hc : '0' ≤ c ∧ c ≤ '9'
  · rw [if_pos hc] at h
    exact ⟨hc, (Option.some.inj h).symm⟩
  · rw [if_neg hc] at h
    cases h

theorem readDigits_split (cs : List Char) (acc n : Nat) :
    ∃ ds, (∀ c ∈ ds, IsDigit c) ∧ cs = ds ++ (readDigits cs acc n).2.2 ∧
      (readDigits cs acc n).1 = ds.foldl (fun a c => 10 * a + (c.toNat - 48)) acc ∧
      (readDigits cs acc n).2.1 = n + ds.length := by
  induction cs generalizing acc n with
  | nil => exact ⟨[], by simp, rfl, rfl, rfl⟩
  | cons c cs ih =>
    cases hd : digit? c with
    | none =>
      refine ⟨[], by simp, ?_, ?_, ?_⟩ <;> simp [readDigits, hd]
    | some d =>
      obtain ⟨hc, rfl⟩ := digit?_some c d hd
      obtain ⟨ds, h1, h2, h3, h4⟩ := ih (10 * acc + (c.toNat - 48)) (n + 1)
      refine ⟨c :: ds, ?_, ?_, ?_, ?_⟩
      · intro x hx
        rcases List.mem_cons.1 hx with rfl | hx
        · exact hc
        · exact h1 x hx
      · simp only [readDigits, hd, List.cons_append]
        rw [← h2]
      · simp only [readDigits, hd, List.foldl_cons]
        exact h3
      · simp only [readDigits, hd, List.length_cons]
        rw [h4]
        omega

/-- A run of digits read from the start: `readDigits cs 0 0 = (v, k + 1, rest)` splits `cs` into
a non-empty run of digits that spells `v` and `rest`. -/
theorem readDigits_sound (cs rest : List Char) (v k : Nat)
    (h : readDigits cs 0 0 = (v, k + 1, rest)) :
    ∃ ds, IsDigits ds ∧ cs = ds ++ rest ∧ v = decimal ds ∧ ds.length = k + 1 := by
  obtain ⟨ds, h1, h2, h3, h4⟩ := readDigits_split cs 0 0
  rw [h] at h2 h3 h4
  simp only [Nat.zero_add] at h4
  refine ⟨ds, ⟨?_, h1⟩, h2, h3, h4.symm⟩
  rintro rfl
  simp at h4

theorem readInt_sound (cs rest : List Char) (v : Nat) (h : readInt cs = some (v, rest)) :
    ∃ i, IntegerPart i ∧ cs = i ++ rest ∧ v = decimal i := by
  unfold readInt at h
  split at h
  · cases h
  · rename_i c cs1
    split at h
    · rename_i hc
      simp only [Option.some.injEq, Prod.mk.injEq] at h
      obtain ⟨rfl, rfl⟩ := h
      exact ⟨['0'], .zero, by rw [hc]; rfl, rfl⟩
    · rename_i hc
      split at h
      · cases h
      · rename_i v1 k rest1 hk heq
        simp only [Option.some.injEq, Prod.mk.injEq] at h
        obtain ⟨rfl, rfl⟩ := h
        cases k with
        | zero => exact (hk rfl).elim
        | succ k =>
          obtain ⟨ds, hds, e, hv, -⟩ := readDigits_sound _ _ _ _ heq
          cases ds with
          | nil => exact absurd rfl hds.1
          | cons d ds =>
            simp only [List.cons_append, List.cons.injEq] at e
            obtain ⟨rfl, e2⟩ := e
            refine ⟨c :: ds, .digits c ds (hds.2 c (List.mem_cons_self _ _)) hc
              (fun x hx => hds.2 x (List.mem_cons_of_mem _ hx)), ?_, hv⟩
            rw [List.cons_append, e2]

theorem readFraction_sound (cs rest : List Char) (fv fn : Nat)
    (h : readFraction cs = some (fv, fn, rest)) :
    ∃ f, FractionPart f fv fn ∧ cs = f ++ rest := by
  unfold readFraction at h
  split at h
  · simp only [Option.some.injEq, Prod.mk.injEq] at h
    obtain ⟨rfl, rfl, rfl⟩ := h
    exact ⟨[], .absent, rfl⟩
  · rename_i c cs1
    split at h
    · rename_i hc
      split at h
      · cases h
      · rename_i v1 k rest1 hk heq
        simp only [Option.some.injEq, Prod.mk.injEq] at h
        obtain ⟨rfl, rfl, rfl⟩ := h
        cases k with
        | zero => exact (hk rfl).elim
        | succ k =>
          obtain ⟨ds, hds, e, hv, hl⟩ := readDigits_sound _ _ _ _ heq
          refine ⟨'.' :: ds, ?_, by rw [hc, e]; rfl⟩
          rw [hv, ← hl]
          exact .digits ds hds
    · simp only [Option.some.injEq, Prod.mk.injEq] at h
      obtain ⟨rfl, rfl, rfl⟩ := h
      exact ⟨[], .absent, rfl⟩

theorem readExpDigits_sound (neg : Bool) (cs rest : List Char) (e : Int)
    (h : readExpDigits neg cs = some (e, rest)) :
    ∃ ds, IsDigits ds ∧ cs = ds ++ rest ∧
      e = if neg then -(decimal ds : Int) else (decimal ds : Int) := by
  unfold readExpDigits at h
  split at h
  · cases h
  · rename_i v1 k rest1 hk heq
    simp only [Option.some.injEq, Prod.mk.injEq] at h
    obtain ⟨rfl, rfl⟩ := h
    cases k with
    | zero => exact (hk rfl).elim
    | succ k =>
      obtain ⟨ds, hds, e, hv, -⟩ := readDigits_sound _ _ _ _ heq
      exact ⟨ds, hds, e, by rw [hv]⟩

theorem readExponent_sound (cs rest : List Char) (e : Int)
    (h : readExponent cs = some (e, rest)) : ∃ x, ExponentPart x e ∧ cs = x ++ rest := by
  unfold readExponent at h
  split at h
  · simp only [Option.some.injEq, Prod.mk.injEq] at h
    obtain ⟨rfl, rfl⟩ := h
    exact ⟨[], .absent, rfl⟩
  · rename_i c cs1
    split at h
    · rename_i hc
      unfold readSignedExp at h
      split at h
      · cases h
      · rename_i s cs2
        split at h
        · rename_i hs
          obtain ⟨ds, hds, e1, e2⟩ := readExpDigits_sound _ _ _ _ h
          refine ⟨c :: '+' :: ds, ?_, by rw [hs, e1]; rfl⟩
          rw [e2]
          exact .plus c ds hc hds
        · split at h
          · rename_i hs
            obtain ⟨ds, hds, e1, e2⟩ := readExpDigits_sound _ _ _ _ h
            refine ⟨c :: '-' :: ds, ?_, by rw [hs, e1]; rfl⟩
            rw [e2]
            exact .minus c ds hc hds
          · obtain ⟨ds, hds, e1, e2⟩ := readExpDigits_sound _ _ _ _ h
            refine ⟨c :: ds, ?_, by rw [e1]; rfl⟩
            rw [e2]
            exact .unsigned c ds hc hds
    · simp only [Option.some.injEq, Prod.mk.injEq] at h
      obtain ⟨rfl, rfl⟩ := h
      exact ⟨[], .absent, rfl⟩

theorem readUnsigned_sound (negative : Bool) (cs rest : List Char) (n : JsNumber)
    (h : readUnsigned negative cs = some (n, rest)) :
    ∃ i f x fv fn e, IntegerPart i ∧ FractionPart f fv fn ∧ ExponentPart x e ∧
      cs = i ++ f ++ x ++ rest ∧ n = JsNumber.ofDecimal negative (decimal i) fv fn e := by
  unfold readUnsigned at h
  split at h
  · cases h
  · rename_i iv cs1 h1
    split at h
    · cases h
    · rename_i fv fn cs2 h2
      split at h
      · cases h
      · rename_i e cs3 h3
        simp only [Option.some.injEq, Prod.mk.injEq] at h
        obtain ⟨rfl, rfl⟩ := h
        obtain ⟨i, hi, e1, rfl⟩ := readInt_sound _ _ _ h1
        obtain ⟨f, hf, e2⟩ := readFraction_sound _ _ _ _ h2
        obtain ⟨x, hx, e3⟩ := readExponent_sound _ _ _ h3
        exact ⟨i, f, x, fv, fn, e, hi, hf, hx, by rw [e1, e2, e3]; simp, rfl⟩

theorem readNumber_sound (cs rest : List Char) (n : JsNumber)
    (h : readNumber cs = some (n, rest)) : ∃ body, Numeral body n ∧ cs = body ++ rest := by
  unfold readNumber at h
  split at h
  · cases h
  · rename_i c cs1
    split at h
    · rename_i hc
      obtain ⟨i, f, x, fv, fn, e, hi, hf, hx, e1, rfl⟩ := readUnsigned_sound _ _ _ _ h
      exact ⟨'-' :: (i ++ f ++ x), .negative i f x fv fn e hi hf hx, by rw [hc, e1]; simp⟩
    · obtain ⟨i, f, x, fv, fn, e, hi, hf, hx, e1, rfl⟩ := readUnsigned_sound _ _ _ _ h
      exact ⟨i ++ f ++ x, .positive i f x fv fn e hi hf hx, by rw [e1]⟩

theorem readWord_sound (word cs rest : List Char) (h : readWord word cs = some rest) :
    cs = word ++ rest := by
  induction word generalizing cs with
  | nil =>
    simp only [readWord, Option.some.injEq] at h
    rw [h]
    rfl
  | cons w ws ih =>
    cases cs with
    | nil => simp [readWord] at h
    | cons c cs =>
      simp only [readWord] at h
      split at h
      · rename_i hw
        rw [hw, List.cons_append, ← ih cs h]
      · cases h

theorem readAtom_sound (cs rest : List Char) (v : JsValue)
    (h : readAtom cs = some (v, rest)) :
    ∃ body, Denotes body (.value v) ∧ cs = body ++ rest := by
  unfold readAtom at h
  split at h
  · rename_i r hr
    simp only [Option.some.injEq, Prod.mk.injEq] at h
    obtain ⟨rfl, rfl⟩ := h
    exact ⟨_, .true, readWord_sound _ _ _ hr⟩
  · split at h
    · rename_i r hr
      simp only [Option.some.injEq, Prod.mk.injEq] at h
      obtain ⟨rfl, rfl⟩ := h
      exact ⟨_, .false, readWord_sound _ _ _ hr⟩
    · split at h
      · rename_i r hr
        simp only [Option.some.injEq, Prod.mk.injEq] at h
        obtain ⟨rfl, rfl⟩ := h
        exact ⟨_, .null, readWord_sound _ _ _ hr⟩
      · split at h
        · rename_i q r hr
          simp only [Option.some.injEq, Prod.mk.injEq] at h
          obtain ⟨rfl, rfl⟩ := h
          obtain ⟨body, hb, e⟩ := readNumber_sound _ _ _ hr
          exact ⟨body, .number body q hb, e⟩
        · cases h

theorem escapeUnit?_sound (e : Char) (u : Nat) (h : escapeUnit? e = some u) : Escape e u := by
  unfold escapeUnit? at h
  repeat' split at h
  all_goals first
    | (rename_i he
       cases h
       rw [he]
       constructor)
    | cases h

theorem readString_sound (n : Nat) (cs : List Char) (acc : List Nat) (s : JsString)
    (rest : List Char) (hn : cs.length ≤ n) (h : readString cs acc = some (s, rest)) :
    ∃ body us, StringBody body us ∧ cs = body ++ '"' :: rest ∧ s = ⟨acc.reverse ++ us⟩ := by
  induction n generalizing cs acc with
  | zero =>
    cases cs with
    | nil => simp [readString] at h
    | cons c cs => simp at hn
  | succ n ih =>
    cases cs with
    | nil => simp [readString] at h
    | cons c cs =>
      simp only [List.length_cons, Nat.add_le_add_iff_right] at hn
      unfold readString at h
      split at h
      · rename_i hc
        simp only [Option.some.injEq, Prod.mk.injEq] at h
        obtain ⟨rfl, rfl⟩ := h
        exact ⟨[], [], .nil, by rw [hc]; rfl, by simp⟩
      · rename_i hq
        split at h
        · rename_i hb
          split at h
          · cases h
          · rename_i e cs1
            simp only [List.length_cons] at hn
            split at h
            · rename_i he
              split at h
              · rename_i h1 h2 h3 h4 cs2
                split at h
                · rename_i u hu
                  obtain ⟨body, us, hbody, e1, e2⟩ :=
                    ih cs2 _ (by simp only [List.length_cons] at hn; omega) h
                  refine ⟨'\\' :: 'u' :: h1 :: h2 :: h3 :: h4 :: body, u :: us,
                    .unicode h1 h2 h3 h4 u body us hu hbody, ?_, ?_⟩
                  · rw [hb, he, e1]
                    rfl
                  · rw [e2]
                    simp
                · cases h
              · cases h
            · split at h
              · rename_i u hu
                obtain ⟨body, us, hbody, e1, e2⟩ := ih cs1 _ (by omega) h
                refine ⟨'\\' :: e :: body, u :: us,
                  .escape e u body us (escapeUnit?_sound e u hu) hbody, ?_, ?_⟩
                · rw [hb, e1]
                  rfl
                · rw [e2]
                  simp
              · cases h
        · rename_i hb
          split at h
          · cases h
          · rename_i h32
            obtain ⟨body, us, hbody, e1, e2⟩ := ih cs _ hn h
            refine ⟨c :: body, JsString.utf16 c ++ us,
              .char c body us hq hb (by omega) hbody, ?_, ?_⟩
            · rw [e1]
              rfl
            · rw [e2]
              simp

/-- The readers are sound for the grammar: what they return is what the text they consumed
denotes. -/
theorem read_sound (fuel : Nat) :
    (∀ cs v rest, readValue fuel cs = some (v, rest) →
      ∃ ws body, IsWhitespace ws ∧ Denotes body (.value v) ∧ cs = ws ++ body ++ rest) ∧
    (∀ cs acc r rest, readElements fuel cs acc = some (r, rest) →
      ∃ es vs, Denotes es (.elements vs) ∧ cs = es ++ ']' :: rest ∧
        r = .array (acc.reverse ++ vs)) ∧
    (∀ cs acc r rest, readMembers fuel cs acc = some (r, rest) →
      ∃ ms fs, Denotes ms (.members fs) ∧ cs = ms ++ '\x7d' :: rest ∧
        r = .object (fs.foldl (fun a kv => insertField kv.1 kv.2 a) acc)) := by
  induction fuel with
  | zero =>
    refine ⟨?_, ?_, ?_⟩ <;> intros <;> simp_all [readValue, readElements, readMembers]
  | succ fuel ih =>
    obtain ⟨ihV, ihE, ihM⟩ := ih
    refine ⟨?_, ?_, ?_⟩
    · intro cs v rest h
      obtain ⟨ws0, hws0, e0⟩ := skipWhitespace_split cs
      unfold readValue at h
      split at h
      · cases h
      · rename_i c r0 hskip
        rw [hskip] at e0
        split at h
        · rename_i hc
          obtain ⟨ws1, hws1, e1⟩ := skipWhitespace_split r0
          split at h
          · cases h
          · rename_i d r1 hskip1
            split at h
            · rename_i hd
              simp only [Option.some.injEq, Prod.mk.injEq] at h
              obtain ⟨rfl, rfl⟩ := h
              rw [hskip1] at e1
              refine ⟨ws0, '\x7b' :: ws1 ++ ['\x7d'], hws0, .emptyObject ws1 hws1, ?_⟩
              rw [e0, hc, e1, hd]
              simp
            · rw [← hskip1, readMembers_skip] at h
              obtain ⟨ms, fs, hms, e2, rfl⟩ := ihM _ _ _ _ h
              refine ⟨ws0, '\x7b' :: ms ++ ['\x7d'], hws0, .object ms fs hms, ?_⟩
              rw [e0, hc, e2]
              simp
        · split at h
          · rename_i hc
            obtain ⟨ws1, hws1, e1⟩ := skipWhitespace_split r0
            split at h
            · cases h
            · rename_i d r1 hskip1
              split at h
              · rename_i hd
                simp only [Option.some.injEq, Prod.mk.injEq] at h
                obtain ⟨rfl, rfl⟩ := h
                rw [hskip1] at e1
                refine ⟨ws0, '[' :: ws1 ++ [']'], hws0, .emptyArray ws1 hws1, ?_⟩
                rw [e0, hc, e1, hd]
                simp
              · rw [← hskip1, readElements_skip] at h
                obtain ⟨es, vs, hes, e2, rfl⟩ := ihE _ _ _ _ h
                refine ⟨ws0, '[' :: es ++ [']'], hws0, ?_, ?_⟩
                · simpa using Denotes.array es vs hes
                · rw [e0, hc, e2]
                  simp
          · split at h
            · rename_i hc
              split at h
              · rename_i s r1 hs
                simp only [Option.some.injEq, Prod.mk.injEq] at h
                obtain ⟨rfl, rfl⟩ := h
                obtain ⟨body, us, hbody, e1, rfl⟩ :=
                  readString_sound _ _ _ _ _ (Nat.le_refl _) hs
                refine ⟨ws0, '"' :: body ++ ['"'], hws0, ?_, ?_⟩
                · simpa using Denotes.string body us hbody
                · rw [e0, hc, e1]
                  simp
              · cases h
            · obtain ⟨body, hbody, e1⟩ := readAtom_sound _ _ _ h
              exact ⟨ws0, body, hws0, hbody, by rw [e0, e1]; simp⟩
    · intro cs acc r rest h
      unfold readElements at h
      split at h
      · cases h
      · rename_i v1 r0 hv
        obtain ⟨ws1, body, hws1, hbody, e1⟩ := ihV _ _ _ hv
        obtain ⟨ws2, hws2, e2⟩ := skipWhitespace_split r0
        split at h
        · cases h
        · rename_i c r1 hskip
          rw [hskip] at e2
          split at h
          · rename_i hc
            obtain ⟨es, vs, hes, e3, rfl⟩ := ihE _ _ _ _ h
            refine ⟨ws1 ++ body ++ ws2 ++ ',' :: es, v1 :: vs,
              .element ws1 body ws2 es v1 vs hws1 hws2 hbody hes, ?_, by simp⟩
            rw [e1, e2, hc, e3]
            simp
          · split at h
            · rename_i hc
              simp only [Option.some.injEq, Prod.mk.injEq] at h
              obtain ⟨rfl, rfl⟩ := h
              refine ⟨ws1 ++ body ++ ws2, [v1],
                .lastElement ws1 body ws2 v1 hws1 hws2 hbody, ?_, by simp⟩
              rw [e1, e2, hc]
              simp
            · cases h
    · intro cs acc r rest h
      obtain ⟨ws1, hws1, e1⟩ := skipWhitespace_split cs
      unfold readMembers at h
      split at h
      · cases h
      · rename_i q r0 hskip
        rw [hskip] at e1
        split at h
        · rename_i hq
          split at h
          · cases h
          · rename_i k r1 hs
            obtain ⟨key, us, hkey, e2, rfl⟩ := readString_sound _ _ _ _ _ (Nat.le_refl _) hs
            obtain ⟨ws2, hws2, e3⟩ := skipWhitespace_split r1
            split at h
            · cases h
            · rename_i c r2 hskip2
              rw [hskip2] at e3
              split at h
              · rename_i hc
                split at h
                · cases h
                · rename_i v1 r3 hv
                  obtain ⟨ws3, body, hws3, hbody, e4⟩ := ihV _ _ _ hv
                  obtain ⟨ws4, hws4, e5⟩ := skipWhitespace_split r3
                  split at h
                  · cases h
                  · rename_i d r4 hskip4
                    rw [hskip4] at e5
                    split at h
                    · rename_i hd
                      obtain ⟨ms, fs, hms, e6, rfl⟩ := ihM _ _ _ _ h
                      refine ⟨ws1 ++ '"' :: key ++ '"' :: ws2 ++ ':' :: ws3 ++ body ++ ws4 ++
                          ',' :: ms, (⟨us⟩, v1) :: fs,
                        .member ws1 key ws2 ws3 body ws4 ms us v1 fs hws1 hws2 hws3 hws4 hkey
                          hbody hms, ?_, by simp⟩
                      rw [e1, hq, e2, e3, hc, e4, e5, hd, e6]
                      simp
                    · split at h
                      · rename_i hd
                        simp only [Option.some.injEq, Prod.mk.injEq] at h
                        obtain ⟨rfl, rfl⟩ := h
                        refine ⟨ws1 ++ '"' :: key ++ '"' :: ws2 ++ ':' :: ws3 ++ body ++ ws4,
                          [(⟨us⟩, v1)],
                          .lastMember ws1 key ws2 ws3 body ws4 us v1 hws1 hws2 hws3 hws4 hkey
                            hbody, ?_, by simp⟩
                        rw [e1, hq, e2, e3, hc, e4, e5, hd]
                        simp
                      · cases h
              · cases h
        · cases h

/-- `JSON.parse` returns only the value a text encodes. -/
theorem parse_sound (text : String) (v : JsValue) (h : parse text = some v) :
    Encodes text v := by
  unfold parse at h
  split at h
  · rename_i v1 rest hv
    split at h
    · rename_i hskip
      simp only [Option.some.injEq] at h
      subst h
      obtain ⟨ws1, body, hws1, hbody, e1⟩ := (read_sound _).1 _ _ _ hv
      obtain ⟨ws2, hws2, e2⟩ := skipWhitespace_split rest
      rw [hskip, List.append_nil] at e2
      exact ⟨ws1, body, rest, hws1, e2 ▸ hws2, hbody, e1⟩
    · cases h
  · cases h

/-- `JSON.parse` decides the grammar: it returns `v` exactly for the texts that encode `v`. -/
theorem parse_iff (text : String) (v : JsValue) : parse text = some v ↔ Encodes text v :=
  ⟨parse_sound text v, parse_complete text v⟩

end JSON

/-! ## Decoding the concrete texts -/

theorem parse_miamiText : JSON.parse miamiText = some miamiRisk := by
  set_option maxRecDepth 100000 in with_unfolding_all rfl

theorem parse_refusal : JSON.parse "I cannot comply." = none := rfl

theorem parse_otherShape :
    JSON.parse "[1, \"x\"]" = some (.array [.number 1, .string "x"]) := by
  with_unfolding_all rfl

theorem encodes_miamiText : JSON.Encodes miamiText miamiRisk :=
  JSON.parse_sound miamiText miamiRisk parse_miamiText

theorem parse_emptyObject : JSON.parse "\x7b\x7d" = some (.object []) := rfl

/-! ## Facts about the log -/

theorem createCalls_append (xs ys : List Event) :
    createCalls (xs ++ ys) = createCalls xs ++ createCalls ys := by
  induction xs with
  | nil => rfl
  | cons x xs ih => cases x <;> simp [createCalls, ih]

theorem resultsWrites_append (xs ys : List Event) :
    resultsWrites (xs ++ ys) = resultsWrites xs ++ resultsWrites ys := by
  induction xs with
  | nil => rfl
  | cons x xs ih => cases x <;> simp [resultsWrites, ih]

theorem createCalls_parseLog (content : Option String) : createCalls (parseLog content) = [] := by
  unfold parseLog
  cases JSON.parse (content.getD "null") <;> rfl

theorem resultsWrites_parseLog (content : Option String) :
    resultsWrites (parseLog content) = [] := by
  unfold parseLog
  cases JSON.parse (content.getD "null") <;> rfl

/-! ## What each handler does, case by case -/

theorem generateAIInsights_rejected (client : ModelClient) (ctx : AssessmentContext) (w : World)
    (e : JsError) (h : client (insightsRequest ctx) = .error e) :
    generateAIInsights client ctx w =
      (.ok (), { state := w.state,
                 log := w.log ++ [.create (insightsRequest ctx)] ++
                   [.consoleError "Error generating AI insights:" e] }) := by
  simp [generateAIInsights, tryCatch, tryCatchThe, MonadExcept.tryCatch, Async.tryCatch, bind,
    Async.bind, awaitCreate, h, consoleError, Async.emit]

theorem generateAIInsights_resolved (client : ModelClient) (ctx : AssessmentContext) (w : World)
    (completion : Completion) (choice : Choice) (more : List Choice)
    (h : client (insightsRequest ctx) = .ok completion)
    (hc : completion.choices = choice :: more) :
    generateAIInsights client ctx w =
      (.ok (), { state := { w.state with
                   insights := decoded choice.message.content (insightsFallback ctx) },
                 log := w.log ++ [.create (insightsRequest ctx)] ++
                   [.setInsights (decoded choice.message.content (insightsFallback ctx))] }) := by
  simp only [generateAIInsights, tryCatch, tryCatchThe, MonadExcept.tryCatch, Async.tryCatch, bind,
    Async.bind, awaitCreate, h, firstContent, hc, Async.pure, jsonParse, decoded]
  cases hp : JSON.parse (choice.message.content.getD "null") <;>
    simp [Async.throw, Async.pure, pure, setInsights]

theorem generateAIInsights_noChoice (client : ModelClient) (ctx : AssessmentContext) (w : World)
    (completion : Completion) (h : client (insightsRequest ctx) = .ok completion)
    (hc : completion.choices = []) :
    generateAIInsights client ctx w =
      (.ok (), { state := w.state,
                 log := w.log ++ [.create (insightsRequest ctx)] ++
                   [.consoleError "Error generating AI insights:" .typeError] }) := by
  simp [generateAIInsights, tryCatch, tryCatchThe, MonadExcept.tryCatch, Async.tryCatch, bind,
    Async.bind, awaitCreate, h, firstContent, hc, Async.throw, consoleError, Async.emit]

/-- The insights step never throws, leaves `loading` and `results` alone, and adds to the log
its own call followed by one more event that is neither a `setResults` nor a `setLoading`. -/
theorem generateAIInsights_frame (client : ModelClient) (ctx : AssessmentContext) (w : World) :
    ∃ (v : JsValue) (ev : Event),
      generateAIInsights client ctx w =
        (.ok (), { state := { w.state with insights := v },
                   log := w.log ++ [.create (insightsRequest ctx)] ++ [ev] }) ∧
      ((ev = .setInsights v) ∨
        (v = w.state.insights ∧ ∃ e, ev = .consoleError "Error generating AI insights:" e)) := by
  cases h : client (insightsRequest ctx) with
  | error e =>
    exact ⟨w.state.insights, _, generateAIInsights_rejected client ctx w e h, Or.inr ⟨rfl, e, rfl⟩⟩
  | ok completion =>
    cases hc : completion.choices with
    | nil =>
      exact ⟨w.state.insights, _, generateAIInsights_noChoice client ctx w completion h hc,
        Or.inr ⟨rfl, _, rfl⟩⟩
    | cons choice more =>
      exact ⟨_, _, generateAIInsights_resolved client ctx w completion choice more h hc,
        Or.inl rfl⟩

theorem assessRisk_empty (client : ModelClient) (ctx : AssessmentContext) (w : World)
    (h : ctx.location = "") :
    assessRisk client ctx w =
      (.ok (), { state := w.state, log := w.log ++ [.alert "Please enter a location"] }) := by
  simp [assessRisk, h, alert, Async.emit]

theorem handler_rejected (mode : Mode) (client : ModelClient) (ctx : AssessmentContext)
    (w : World) (e : JsError) (hs : mode.starts ctx)
    (h : client (mode.request ctx) = .error e) :
    mode.handler client ctx w =
      (.ok (), { state := { w.state with loading := false },
                 log := w.log ++ [.setLoading true, .create (mode.request ctx),
                   .consoleError mode.errorLabel e, .alert mode.alertText,
                   .setLoading false] }) := by
  cases mode with
  | assess =>
    have hl : ctx.location ≠ "" := by
      rcases hs with hs | hs
      · cases hs
      · exact hs
    simp only [Mode.request] at h
    simp [Mode.handler, Mode.request, Mode.errorLabel, Mode.alertText, assessRisk, hl, tryCatch,
      tryCatchThe, MonadExcept.tryCatch, Async.tryCatch, bind, Async.bind, awaitCreate, h,
      consoleError, alert, Async.emit, setLoading]
  | predict =>
    simp only [Mode.request] at h
    simp [Mode.handler, Mode.request, Mode.errorLabel, Mode.alertText, predictFuture, tryCatch,
      tryCatchThe, MonadExcept.tryCatch, Async.tryCatch, bind, Async.bind, awaitCreate, h,
      consoleError, alert, Async.emit, setLoading]

theorem handler_noChoice (mode : Mode) (client : ModelClient) (ctx : AssessmentContext)
    (w : World) (completion : Completion) (hs : mode.starts ctx)
    (h : client (mode.request ctx) = .ok completion) (hc : completion.choices = []) :
    mode.handler client ctx w =
      (.ok (), { state := { w.state with loading := false },
                 log := w.log ++ [.setLoading true, .create (mode.request ctx),
                   .consoleError mode.errorLabel .typeError, .alert mode.alertText,
                   .setLoading false] }) := by
  cases mode with
  | assess =>
    have hl : ctx.location ≠ "" := by
      rcases hs with hs | hs
      · cases hs
      · exact hs
    simp only [Mode.request] at h
    simp [Mode.handler, Mode.request, Mode.errorLabel, Mode.alertText, assessRisk, hl, tryCatch,
      tryCatchThe, MonadExcept.tryCatch, Async.tryCatch, bind, Async.bind, awaitCreate, h,
      firstContent, hc, Async.throw, consoleError, alert, Async.emit, setLoading]
  | predict =>
    simp only [Mode.request] at h
    simp [Mode.handler, Mode.request, Mode.errorLabel, Mode.alertText, predictFuture, tryCatch,
      tryCatchThe, MonadExcept.tryCatch, Async.tryCatch, bind, Async.bind, awaitCreate, h,
      firstContent, hc, Async.throw, consoleError, alert, Async.emit, setLoading]

theorem generateAIInsights_ok (client : ModelClient) (ctx : AssessmentContext) (w : World) :
    generateAIInsights client ctx w = (.ok (), (generateAIInsights client ctx w).2) := by
  obtain ⟨v, ev, hg, -⟩ := generateAIInsights_frame client ctx w
  rw [hg]

theorem handler_resolved (mode : Mode) (client : ModelClient) (ctx : AssessmentContext)
    (w : World) (completion : Completion) (choice : Choice) (more : List Choice)
    (hs : mode.starts ctx) (h : client (mode.request ctx) = .ok completion)
    (hc : completion.choices = choice :: more) :
    mode.handler client ctx w =
      (.ok (),
        { state := { (generateAIInsights client ctx
              (afterResults mode ctx w choice.message.content)).2.state with loading := false },
          log := (generateAIInsights client ctx
              (afterResults mode ctx w choice.message.content)).2.log ++ [.setLoading false] }) := by
  cases mode with
  | assess =>
    have hl : ctx.location ≠ "" := by
      rcases hs with hs | hs
      · cases hs
      · exact hs
    simp only [Mode.request] at h
    cases hp : JSON.parse (choice.message.content.getD "null") <;>
    · simp only [Mode.handler, assessRisk, hl, tryCatch, if_false,
        tryCatchThe, MonadExcept.tryCatch, Async.tryCatch, bind, Async.bind, awaitCreate, h,
        firstContent, hc, Async.throw, Async.pure, pure, jsonParse, hp, consoleError, alert,
        Async.emit, setLoading, setResults, afterResults, parseLog, decoded, Mode.fallback,
        Mode.request, Option.getD_none, Option.getD_some, List.append_assoc, List.cons_append,
        List.nil_append]
      rw [generateAIInsights_ok]
  | predict =>
    simp only [Mode.request] at h
    cases hp : JSON.parse (choice.message.content.getD "null") <;>
    · simp only [Mode.handler, predictFuture, tryCatch,
        tryCatchThe, MonadExcept.tryCatch, Async.tryCatch, bind, Async.bind, awaitCreate, h,
        firstContent, hc, Async.throw, Async.pure, pure, jsonParse, hp, consoleError, alert,
        Async.emit, setLoading, setResults, afterResults, parseLog, decoded, Mode.fallback,
        Mode.request, Option.getD_none, Option.getD_some, List.append_assoc, List.cons_append,
        List.nil_append]
      rw [generateAIInsights_ok]

/-- The whole run after a primary call that resolved with a first choice: `results` holds the
decoded value (or the fallback), the insights call follows `setResults` at once, and the one
event after it is the insights step storing its value or logging its failure. -/
theorem handler_resolved_run (mode : Mode) (client : ModelClient) (ctx : AssessmentContext)
    (w : World) (completion : Completion) (choice : Choice) (more : List Choice)
    (hs : mode.starts ctx) (h : client (mode.request ctx) = .ok completion)
    (hc : completion.choices = choice :: more) :
    ∃ (vi : JsValue) (ev : Event),
      mode.handler client ctx w =
        (.ok (),
          { state := { loading := false, results := decoded choice.message.content mode.fallback,
                       insights := vi },
            log := (w.log ++ [.setLoading true, .create (mode.request ctx)] ++
                parseLog choice.message.content) ++
              [.setResults (decoded choice.message.content mode.fallback),
                .create (insightsRequest ctx)] ++ [ev, .setLoading false] }) ∧
      ((ev = .setInsights vi) ∨
        (vi = w.state.insights ∧ ∃ e, ev = .consoleError "Error generating AI insights:" e)) := by
  obtain ⟨vi, ev, hg, hev⟩ :=
    generateAIInsights_frame client ctx (afterResults mode ctx w choice.message.content)
  refine ⟨vi, ev, ?_, hev⟩
  rw [handler_resolved mode client ctx w completion choice more hs h hc, hg]
  simp [afterResults]

theorem text_choice (completion : Completion) (text : String)
    (ht : completion.text? = some text) :
    ∃ choice more, completion.choices = choice :: more ∧ choice.message.content = some text := by
  unfold Completion.text? at ht
  cases hc : completion.choices with
  | nil => simp [hc] at ht
  | cons choice more => exact ⟨choice, more, rfl, by simpa [hc] using ht⟩

/-- The guard of `assessRisk`: with an empty location it only shows its notice: no request is
sent, no cell is written. -/
theorem assessRisk_empty_location_idle (client : ModelClient) (st : PipelineState) :
    assessRisk client nowhere (World.start st) =
      (.ok (), { state := st, log := [.alert "Please enter a location"] }) :=
  assessRisk_empty client nowhere (World.start st) rfl

/-- Either the handler stops at the guard of `assessRisk`, or it gets to its primary call. -/
theorem guard_or_starts (mode : Mode) (ctx : AssessmentContext) :
    (mode = .assess ∧ ctx.location = "") ∨ mode.starts ctx := by
  cases mode with
  | assess =>
    by_cases hl : ctx.location = ""
    · exact Or.inl ⟨rfl, hl⟩
    · exact Or.inr (Or.inr hl)
  | predict => exact Or.inr (Or.inl rfl)

/-- Whatever the client answers, a handler completes normally, writes `loading` last with
`false` unless it stopped at the guard, and leaves `insights` alone when the insights request is
rejected. -/
theorem handler_summary (mode : Mode) (client : ModelClient) (ctx : AssessmentContext)
    (w : World) :
    (mode.handler client ctx w).1 = .ok () ∧
    ((mode.handler client ctx w).2.state.loading = false ∨
      (mode.handler client ctx w).2.state = w.state) ∧
    (∀ e, client (insightsRequest ctx) = .error e →
      (mode.handler client ctx w).2.state.insights = w.state.insights) := by
  rcases guard_or_starts mode ctx with ⟨hm, hl⟩ | hs
  · subst hm
    simp only [Mode.handler]
    rw [assessRisk_empty client ctx w hl]
    exact ⟨rfl, Or.inr rfl, fun _ _ => rfl⟩
  · cases h : client (mode.request ctx) with
    | error e =>
      rw [handler_rejected mode client ctx w e hs h]
      exact ⟨rfl, Or.inl rfl, fun _ _ => rfl⟩
    | ok completion =>
      cases hc : completion.choices with
      | nil =>
        rw [handler_noChoice mode client ctx w completion hs h hc]
        exact ⟨rfl, Or.inl rfl, fun _ _ => rfl⟩
      | cons choice more =>
        rw [handler_resolved mode client ctx w completion choice more hs h hc]
        refine ⟨rfl, Or.inl rfl, fun e he => ?_⟩
        rw [generateAIInsights_rejected client ctx _ e he]
        rfl

theorem fallback_hasAllHazards (mode : Mode) : hasAllHazards mode.fallback = true := by
  cases mode <;> rfl

theorem string_ne (a b : JsString) (h : a ≠ b) : JsValue.string a ≠ JsValue.string b :=
  fun e => h (JsValue.string.inj e)

/-! ## The properties of the specification -/

/-- C1, at the failing input: with an empty location `predictFuture` has no guard; whatever the
client answers, it first sets `loading` to true and then sends the prediction request. -/
theorem predictFuture_empty_location_calls (client : ModelClient) (st : PipelineState) :
    nowhere.location = "" ∧
    ∃ rest, (predictFuture client nowhere (World.start st)).2.log =
        .setLoading true :: .create (predictRequest nowhere) :: rest ∧
      loadingWrites (predictFuture client nowhere (World.start st)).2.log =
        true :: loadingWrites rest ∧
      createCalls (predictFuture client nowhere (World.start st)).2.log =
        predictRequest nowhere :: createCalls rest := by
  refine ⟨rfl, ?_⟩
  have hs : Mode.predict.starts nowhere := Or.inl rfl
  have key : ∃ rest, (predictFuture client nowhere (World.start st)).2.log =
      .setLoading true :: .create (predictRequest nowhere) :: rest := by
    cases h : client (Mode.predict.request nowhere) with
    | error e =>
      have := handler_rejected .predict client nowhere (World.start st) e hs h
      simp only [Mode.handler] at this
      exact ⟨_, by rw [this]; rfl⟩
    | ok completion =>
      cases hc : completion.choices with
      | nil =>
        have := handler_noChoice .predict client nowhere (World.start st) completion hs h hc
        simp only [Mode.handler] at this
        exact ⟨_, by rw [this]; rfl⟩
      | cons choice more =>
        obtain ⟨vi, ev, hrun, -⟩ :=
          handler_resolved_run .predict client nowhere (World.start st) completion choice more
            hs h hc
        simp only [Mode.handler] at hrun
        exact ⟨_, by rw [hrun]; simp [World.start, Mode.request]; rfl⟩
  obtain ⟨rest, hrest⟩ := key
  exact ⟨rest, hrest, by rw [hrest]; rfl, by rw [hrest]; rfl⟩

/-- C2: when the primary call resolves with text that is not JSON, the handler completes
without throwing and `results` ends as the fallback literal of the mode, whatever the text and
the context. -/
theorem malformed_text_stores_fallback (mode : Mode) (client : ModelClient)
    (ctx : AssessmentContext) (st : PipelineState) (completion : Completion) (text : String)
    (hs : mode.starts ctx) (h : client (mode.request ctx) = .ok completion)
    (ht : completion.text? = some text) (hbad : JSON.parse text = none) :
    (mode.handler client ctx (World.start st)).1 = .ok () ∧
    (mode.handler client ctx (World.start st)).2.state.results =
      match mode with
      | .assess =>
        .object
          [ ("flood", .object [("level", .string "Medium"), ("percentage", .number 45)]),
            ("heat", .object [("level", .string "Medium"), ("percentage", .number 55)]),
            ("wildfire", .object [("level", .string "Low"), ("percentage", .number 25)]) ]
      | .predict =>
        .object
          [ ("flood", .object [("level", .string "High"), ("percentage", .number 75)]),
            ("heat", .object [("level", .string "High"), ("percentage", .number 80)]),
            ("wildfire", .object [("level", .string "Medium"), ("percentage", .number 60)]) ] := by
  obtain ⟨choice, more, hc, hcontent⟩ := text_choice completion text ht
  obtain ⟨vi, ev, hrun, -⟩ :=
    handler_resolved_run mode client ctx (World.start st) completion choice more hs h hc
  rw [hrun]
  refine ⟨rfl, ?_⟩
  simp only [decoded, hcontent, Option.getD_some, hbad, Option.getD_none]
  cases mode <;> rfl

/-- C2 at the scenarios of the specification: Denver and the text `I cannot comply.`, in both
modes. -/
theorem malformed_text_stores_fallback_witness :
    ((assessRisk (scripted (.ok (Completion.ofText "I cannot comply.")) (.error .typeError))
        denver (World.start idle)).1 = .ok () ∧
      (assessRisk (scripted (.ok (Completion.ofText "I cannot comply.")) (.error .typeError))
        denver (World.start idle)).2.state.results = assessFallback) ∧
    ((predictFuture (scripted (.ok (Completion.ofText "I cannot comply.")) (.error .typeError))
        denver (World.start idle)).1 = .ok () ∧
      (predictFuture (scripted (.ok (Completion.ofText "I cannot comply.")) (.error .typeError))
        denver (World.start idle)).2.state.results = predictFallback) :=
  ⟨malformed_text_stores_fallback .assess
      (scripted (.ok (Completion.ofText "I cannot comply.")) (.error .typeError)) denver idle
      (Completion.ofText "I cannot comply.") "I cannot comply." (Or.inr (by decide)) rfl rfl rfl,
    malformed_text_stores_fallback .predict
      (scripted (.ok (Completion.ofText "I cannot comply.")) (.error .typeError)) denver idle
      (Completion.ofText "I cannot comply.") "I cannot comply." (Or.inl rfl) rfl rfl rfl⟩

/-- C3: when the primary call resolves with a JSON text that encodes a value `v` of the risk
schema, `results` ends as exactly `v`, in either mode.  `JSON.Encodes` is the JSON grammar with
its meaning, stated without the reader. -/
theorem risk_json_round_trip (mode : Mode) (client : ModelClient) (ctx : AssessmentContext)
    (st : PipelineState) (completion : Completion) (text : String) (v : JsValue)
    (hs : mode.starts ctx) (h : client (mode.request ctx) = .ok completion)
    (ht : completion.text? = some text) (henc : JSON.Encodes text v)
    (hschema : matchesRiskSchema v = true) :
    (mode.handler client ctx (World.start st)).1 = .ok () ∧
    (mode.handler client ctx (World.start st)).2.state.results = v ∧
    matchesRiskSchema (mode.handler client ctx (World.start st)).2.state.results = true := by
  have hv : JSON.parse text = some v := JSON.parse_complete text v henc
  obtain ⟨choice, more, hc, hcontent⟩ := text_choice completion text ht
  obtain ⟨vi, ev, hrun, -⟩ :=
    handler_resolved_run mode client ctx (World.start st) completion choice more hs h hc
  rw [hrun]
  simp only [decoded, hcontent, Option.getD_some, hv]
  exact ⟨trivial, trivial, hschema⟩

set_option maxRecDepth 100000 in
/-- C3 at scenario 1 of the specification: Miami and its response, in both modes. -/
theorem risk_json_round_trip_witness :
    JSON.Encodes miamiText miamiRisk ∧ matchesRiskSchema miamiRisk = true ∧
    (assessRisk (scripted (.ok (Completion.ofText miamiText)) (.error .typeError))
        miami (World.start idle)).2.state.results = miamiRisk ∧
    (predictFuture (scripted (.ok (Completion.ofText miamiText)) (.error .typeError))
        miami (World.start idle)).2.state.results = miamiRisk :=
  ⟨encodes_miamiText, rfl,
    (risk_json_round_trip .assess
      (scripted (.ok (Completion.ofText miamiText)) (.error .typeError)) miami idle
      (Completion.ofText miamiText) miamiText miamiRisk (Or.inr (by decide)) rfl rfl
      encodes_miamiText rfl).2.1,
    (risk_json_round_trip .predict
      (scripted (.ok (Completion.ofText miamiText)) (.error .typeError)) miami idle
      (Completion.ofText miamiText) miamiText miamiRisk (Or.inl rfl) rfl rfl
      encodes_miamiText rfl).2.1⟩

/-- C4: a run of either handler that starts with `loading = false` ends with
`loading = false`, whatever the context and whatever the client answers to the primary and to
the insights request. -/
theorem loading_false_at_end (mode : Mode) (client : ModelClient) (ctx : AssessmentContext)
    (st : PipelineState) (h0 : st.loading = false) :
    (mode.handler client ctx (World.start st)).1 = .ok () ∧
    (mode.handler client ctx (World.start st)).2.state.loading = false := by
  obtain ⟨hok, hl, -⟩ := handler_summary mode client ctx (World.start st)
  refine ⟨hok, ?_⟩
  rcases hl with hl | hl
  · exact hl
  · rw [hl]
    exact h0

set_option maxRecDepth 100000 in
/-- C4 at concrete inputs: a primary call that fails, and a primary call that succeeds followed
by an insights call that fails. -/
theorem loading_false_at_end_witness :
    (assessRisk (scripted (.error (.transport "network")) (.error (.transport "network")))
        miami (World.start idle)).2.state.loading = false ∧
    (predictFuture (scripted (.ok (Completion.ofText miamiText)) (.error (.transport "network")))
        miami (World.start idle)).2.state.loading = false :=
  ⟨(loading_false_at_end .assess
      (scripted (.error (.transport "network")) (.error (.transport "network"))) miami idle
      rfl).2,
    (loading_false_at_end .predict
      (scripted (.ok (Completion.ofText miamiText)) (.error (.transport "network"))) miami idle
      rfl).2⟩

/-- C5: when the primary call of a handler is rejected, `results` and `insights` end as they
started, `loading` ends false, and the primary request is the only one sent. -/
theorem primary_failure_frame (mode : Mode) (client : ModelClient) (ctx : AssessmentContext)
    (st : PipelineState) (e : JsError) (hs : mode.starts ctx)
    (h : client (mode.request ctx) = .error e) :
    (mode.handler client ctx (World.start st)).2.state.results = st.results ∧
    (mode.handler client ctx (World.start st)).2.state.insights = st.insights ∧
    (mode.handler client ctx (World.start st)).2.state.loading = false ∧
    createCalls (mode.handler client ctx (World.start st)).2.log = [mode.request ctx] ∧
    resultsWrites (mode.handler client ctx (World.start st)).2.log = [] := by
  rw [handler_rejected mode client ctx (World.start st) e hs h]
  exact ⟨rfl, rfl, rfl, rfl, rfl⟩

/-- C5 at a concrete input: Denver after an earlier run for Miami, the network down. -/
theorem primary_failure_frame_witness :
    (assessRisk (scripted (.error (.transport "network")) (.error (.transport "network")))
        denver (World.start earlier)).2.state.results = miamiRisk ∧
    (assessRisk (scripted (.error (.transport "network")) (.error (.transport "network")))
        denver (World.start earlier)).2.state.insights = insightsFallback miami ∧
    (assessRisk (scripted (.error (.transport "network")) (.error (.transport "network")))
        denver (World.start earlier)).2.state.loading = false ∧
    createCalls (assessRisk
        (scripted (.error (.transport "network")) (.error (.transport "network")))
        denver (World.start earlier)).2.log = [assessRequest denver] ∧
    resultsWrites (assessRisk
        (scripted (.error (.transport "network")) (.error (.transport "network")))
        denver (World.start earlier)).2.log = [] :=
  primary_failure_frame .assess
    (scripted (.error (.transport "network")) (.error (.transport "network"))) denver earlier
    (.transport "network") (Or.inr (by decide)) rfl

/-- C6: when the primary call resolves with a first choice, the log of the run has
`setResults v` immediately followed by the insights request, where `v` is the decoded value of
the response or the fallback; before it only the primary request was sent, `results` is written
nowhere else, and `results` ends as `v` whatever the insights call does. -/
theorem results_set_before_insights (mode : Mode) (client : ModelClient)
    (ctx : AssessmentContext) (st : PipelineState) (completion : Completion) (choice : Choice)
    (more : List Choice) (hs : mode.starts ctx) (h : client (mode.request ctx) = .ok completion)
    (hc : completion.choices = choice :: more) :
    (∃ before after,
      (mode.handler client ctx (World.start st)).2.log =
        before ++ [.setResults (decoded choice.message.content mode.fallback),
          .create (insightsRequest ctx)] ++ after ∧
      createCalls before = [mode.request ctx] ∧ resultsWrites before = [] ∧
      createCalls after = [] ∧ resultsWrites after = []) ∧
    (mode.handler client ctx (World.start st)).2.state.results =
      decoded choice.message.content mode.fallback := by
  obtain ⟨vi, ev, hrun, hev⟩ :=
    handler_resolved_run mode client ctx (World.start st) completion choice more hs h hc
  rw [hrun]
  refine ⟨⟨_, _, rfl, ?_, ?_, ?_, ?_⟩, rfl⟩
  · rw [createCalls_append, createCalls_parseLog]
    rfl
  · rw [resultsWrites_append, resultsWrites_parseLog]
    rfl
  · rcases hev with hev | ⟨-, e, hev⟩ <;> subst hev <;> rfl
  · rcases hev with hev | ⟨-, e, hev⟩ <;> subst hev <;> rfl

set_option maxRecDepth 100000 in
/-- C6 at scenario 4 of the specification: the risk call succeeds, the insights call is
rejected. -/
theorem results_set_before_insights_witness :
    (assessRisk (scripted (.ok (Completion.ofText miamiText)) (.error (.transport "network")))
        miami (World.start idle)).2.log =
      [.setLoading true, .create (assessRequest miami), .setResults miamiRisk,
        .create (insightsRequest miami),
        .consoleError "Error generating AI insights:" (.transport "network"),
        .setLoading false] ∧
    (assessRisk (scripted (.ok (Completion.ofText miamiText)) (.error (.transport "network")))
        miami (World.start idle)).2.state.results = miamiRisk := by
  have h := results_set_before_insights .assess
    (scripted (.ok (Completion.ofText miamiText)) (.error (.transport "network"))) miami idle
    (Completion.ofText miamiText) { message := { content := some miamiText } } []
    (Or.inr (by decide)) rfl rfl
  have hd : decoded (some miamiText) Mode.assess.fallback = miamiRisk := by
    simp only [decoded, Option.getD_some, parse_miamiText]
  refine ⟨?_, ?_⟩
  · have hrun := handler_resolved .assess
      (scripted (.ok (Completion.ofText miamiText)) (.error (.transport "network"))) miami
      (World.start idle) (Completion.ofText miamiText)
      { message := { content := some miamiText } } [] (Or.inr (by decide)) rfl rfl
    simp only [Mode.handler] at hrun
    rw [hrun, generateAIInsights_rejected _ _ _ (.transport "network") rfl]
    simp only [afterResults, parseLog, hd, Option.getD_some, parse_miamiText, World.start]
    rfl
  · have h2 := h.2
    simp only [hd, Mode.handler] at h2
    exact h2

/-- C7: `getRiskClass` is total: the three exact strings map to their class, and every other
value, a string or not, maps to `risk-medium`. -/
theorem getRiskClass_total (level : JsValue) :
    (level = .string "Low" → getRiskClass level = "risk-low") ∧
    (level = .string "Medium" → getRiskClass level = "risk-medium") ∧
    (level = .string "High" → getRiskClass level = "risk-high") ∧
    (level ≠ .string "Low" → level ≠ .string "Medium" → level ≠ .string "High" →
      getRiskClass level = "risk-medium") := by
  refine ⟨?_, ?_, ?_, ?_⟩
  · rintro rfl
    rfl
  · rintro rfl
    rfl
  · rintro rfl
    rfl
  · intro h1 h2 h3
    cases level with
    | string s =>
      have e1 : ¬ s = "Low" := fun e => h1 (by rw [e])
      have e2 : ¬ s = "Medium" := fun e => h2 (by rw [e])
      have e3 : ¬ s = "High" := fun e => h3 (by rw [e])
      simp only [getRiskClass, e1, e2, e3, if_false]
    | _ => rfl

/-- C7 at the inputs the specification lists, with the case variants. -/
theorem getRiskClass_total_witness :
    getRiskClass (.string "Low") = "risk-low" ∧
    getRiskClass (.string "Medium") = "risk-medium" ∧
    getRiskClass (.string "High") = "risk-high" ∧
    getRiskClass (.string "") = "risk-medium" ∧
    getRiskClass .undefined = "risk-medium" ∧
    getRiskClass (.string "Extreme") = "risk-medium" ∧
    getRiskClass (.string "low") = "risk-medium" ∧
    getRiskClass (.string "HIGH") = "risk-medium" :=
  ⟨(getRiskClass_total (.string "Low")).1 rfl,
    (getRiskClass_total (.string "Medium")).2.1 rfl,
    (getRiskClass_total (.string "High")).2.2.1 rfl,
    (getRiskClass_total (.string "")).2.2.2 (string_ne _ _ (by decide))
      (string_ne _ _ (by decide)) (string_ne _ _ (by decide)),
    (getRiskClass_total .undefined).2.2.2 (by simp) (by simp) (by simp),
    (getRiskClass_total (.string "Extreme")).2.2.2 (string_ne _ _ (by decide))
      (string_ne _ _ (by decide)) (string_ne _ _ (by decide)),
    (getRiskClass_total (.string "low")).2.2.2 (string_ne _ _ (by decide))
      (string_ne _ _ (by decide)) (string_ne _ _ (by decide)),
    (getRiskClass_total (.string "HIGH")).2.2.2 (string_ne _ _ (by decide))
      (string_ne _ _ (by decide)) (string_ne _ _ (by decide))⟩

set_option maxRecDepth 100000 in
/-- C8 as stated fails: the response `{}` is valid JSON, so `results` ends as the empty object,
which has no `flood` key; and the response `null` leaves `results` absent. -/
theorem results_keys_counterexample :
    (scripted (.ok (Completion.ofText "\x7b\x7d")) (.error .typeError))
        (assessRequest miami) = .ok (Completion.ofText "\x7b\x7d") ∧
    (assessRisk (scripted (.ok (Completion.ofText "\x7b\x7d")) (.error .typeError))
        miami (World.start idle)).2.state.results = .object [] ∧
    JsValue.hasKey (.object []) "flood" = false ∧
    hasAllHazards (assessRisk (scripted (.ok (Completion.ofText "\x7b\x7d")) (.error .typeError))
        miami (World.start idle)).2.state.results = false ∧
    (predictFuture (scripted (.ok (Completion.ofText "null")) (.error .typeError))
        miami (World.start idle)).2.state.results = .null ∧
    JsValue.truthy (predictFuture (scripted (.ok (Completion.ofText "null")) (.error .typeError))
        miami (World.start idle)).2.state.results = false := by
  have h1 : (assessRisk (scripted (.ok (Completion.ofText "\x7b\x7d")) (.error .typeError))
      miami (World.start idle)).2.state.results = .object [] := by
    have hrun := handler_resolved .assess
      (scripted (.ok (Completion.ofText "\x7b\x7d")) (.error .typeError)) miami
      (World.start idle) (Completion.ofText "\x7b\x7d")
      { message := { content := some "\x7b\x7d" } } [] (Or.inr (by decide)) rfl rfl
    simp only [Mode.handler] at hrun
    rw [hrun, generateAIInsights_rejected _ _ _ .typeError rfl]
    simp only [afterResults, decoded, Option.getD_some, parse_emptyObject]
  have h2 : (predictFuture (scripted (.ok (Completion.ofText "null")) (.error .typeError))
      miami (World.start idle)).2.state.results = .null := by
    have hrun := handler_resolved .predict
      (scripted (.ok (Completion.ofText "null")) (.error .typeError)) miami
      (World.start idle) (Completion.ofText "null")
      { message := { content := some "null" } } [] (Or.inl rfl) rfl rfl
    simp only [Mode.handler] at hrun
    rw [hrun, generateAIInsights_rejected _ _ _ .typeError rfl]
    have hp : JSON.parse "null" = some .null := rfl
    simp only [afterResults, decoded, Option.getD_some, hp]
  refine ⟨rfl, h1, rfl, ?_, h2, ?_⟩
  · rw [h1]
    rfl
  · rw [h2]
    rfl

/-- C8 as amended: after a primary call that resolved with text, whatever the text, `results`
is the decoded value of the text unchanged when the text is JSON and the fallback of the mode
otherwise; so it is present with all three hazard keys, each with a level and a percentage,
exactly when the text is not JSON or is JSON whose decoded value itself is such a value. -/
theorem results_keys_when_fallback_or_shaped (mode : Mode) (client : ModelClient)
    (ctx : AssessmentContext) (st : PipelineState) (completion : Completion) (text : String)
    (hs : mode.starts ctx) (h : client (mode.request ctx) = .ok completion)
    (ht : completion.text? = some text) :
    (mode.handler client ctx (World.start st)).2.state.results =
      (JSON.parse text).getD mode.fallback ∧
    (hasAllHazards (mode.handler client ctx (World.start st)).2.state.results = true ↔
      (JSON.parse text = none ∨
        ∃ v, JSON.parse text = some v ∧ hasAllHazards v = true)) := by
  obtain ⟨choice, more, hc, hcontent⟩ := text_choice completion text ht
  obtain ⟨vi, ev, hrun, -⟩ :=
    handler_resolved_run mode client ctx (World.start st) completion choice more hs h hc
  rw [hrun]
  simp only [decoded, hcontent, Option.getD_some]
  refine ⟨trivial, ?_⟩
  cases hp : JSON.parse text with
  | none =>
    simp only [Option.getD_none, fallback_hasAllHazards mode, true_or]
  | some v =>
    simp only [Option.getD_some, reduceCtorEq, false_or, Option.some.injEq, exists_eq_left']

set_option maxRecDepth 100000 in
/-- C8 as amended, at Denver with a refusal, at Miami with its response, and at Miami with a
response of another shape. -/
theorem results_keys_when_fallback_or_shaped_witness :
    hasAllHazards (assessRisk
        (scripted (.ok (Completion.ofText "I cannot comply.")) (.error .typeError))
        denver (World.start idle)).2.state.results = true ∧
    hasAllHazards (predictFuture
        (scripted (.ok (Completion.ofText miamiText)) (.error .typeError))
        miami (World.start idle)).2.state.results = true ∧
    (assessRisk (scripted (.ok (Completion.ofText "[1, \"x\"]")) (.error .typeError))
        miami (World.start idle)).2.state.results =
      .array [.number 1, .string "x"] :=
  ⟨(results_keys_when_fallback_or_shaped .assess
      (scripted (.ok (Completion.ofText "I cannot comply.")) (.error .typeError)) denver idle
      (Completion.ofText "I cannot comply.") "I cannot comply." (Or.inr (by decide)) rfl
      rfl).2.2 (Or.inl parse_refusal),
    (results_keys_when_fallback_or_shaped .predict
      (scripted (.ok (Completion.ofText miamiText)) (.error .typeError)) miami idle
      (Completion.ofText miamiText) miamiText (Or.inl rfl) rfl rfl).2.2
      (Or.inr ⟨miamiRisk, parse_miamiText, rfl⟩),
    (results_keys_when_fallback_or_shaped .assess
      (scripted (.ok (Completion.ofText "[1, \"x\"]")) (.error .typeError)) miami idle
      (Completion.ofText "[1, \"x\"]") "[1, \"x\"]" (Or.inr (by decide)) rfl rfl).1.trans
      (by rw [parse_otherShape]; rfl)⟩

set_option maxRecDepth 100000 in
/-- C9 as stated fails: starting from a state in which an earlier run left insights set, a run
whose primary call succeeds and whose insights call is rejected ends with those earlier
insights still set, not absent. -/
theorem stale_insights_counterexample :
    (scripted (.ok (Completion.ofText miamiText)) (.error (.transport "network")))
        (assessRequest denver) = .ok (Completion.ofText miamiText) ∧
    (scripted (.ok (Completion.ofText miamiText)) (.error (.transport "network")))
        (insightsRequest denver) = .error (.transport "network") ∧
    (assessRisk (scripted (.ok (Completion.ofText miamiText)) (.error (.transport "network")))
        denver (World.start earlier)).2.state.insights = insightsFallback miami ∧
    JsValue.truthy (assessRisk
        (scripted (.ok (Completion.ofText miamiText)) (.error (.transport "network")))
        denver (World.start earlier)).2.state.insights = true := by
  have h1 := (handler_summary .assess
    (scripted (.ok (Completion.ofText miamiText)) (.error (.transport "network"))) denver
    (World.start earlier)).2.2 (.transport "network") rfl
  simp only [Mode.handler] at h1
  refine ⟨rfl, rfl, h1, ?_⟩
  rw [h1]
  rfl

/-- C9 as amended: when the insights request is rejected, `insights` ends as it started: absent
if it was absent before the run, and still holding the earlier list if an earlier run had set
it. -/
theorem insights_kept_when_call_fails (mode : Mode) (client : ModelClient)
    (ctx : AssessmentContext) (st : PipelineState) (e : JsError)
    (h : client (insightsRequest ctx) = .error e) :
    (mode.handler client ctx (World.start st)).2.state.insights = st.insights :=
  (handler_summary mode client ctx (World.start st)).2.2 e h

set_option maxRecDepth 100000 in
/-- C9 as amended, at scenario 4 of the specification: from the idle state `insights` stays
absent. -/
theorem insights_kept_when_call_fails_witness :
    (assessRisk (scripted (.ok (Completion.ofText miamiText)) (.error (.transport "network")))
        miami (World.start idle)).2.state.insights = .null :=
  insights_kept_when_call_fails .assess
    (scripted (.ok (Completion.ofText miamiText)) (.error (.transport "network"))) miami idle
    (.transport "network") rfl

/-- C10: when the insights call resolves with text that is not JSON, the insights step
completes without throwing and stores the one-element list of the fallback, built from the
location and the property type only; and so does a whole run whose primary call resolved with a
first choice. -/
theorem malformed_insights_store_fallback (client : ModelClient) (ctx : AssessmentContext)
    (completion : Completion) (text : String)
    (h : client (insightsRequest ctx) = .ok completion) (ht : completion.text? = some text)
    (hbad : JSON.parse text = none) :
    (∀ w : World,
      (generateAIInsights client ctx w).1 = .ok () ∧
      (generateAIInsights client ctx w).2.state.insights =
        .array
          [ .object
              [ ("title", .string "AI Climate Analysis"),
                ("content", .string ("Climate analysis for " ++ ctx.location ++ " shows varying risk levels. The AI assessment indicates the need for comprehensive climate adaptation planning for " ++ ctx.propertyType ++ " properties.")) ] ]) ∧
    (∀ (mode : Mode) (st : PipelineState) (primary : Completion) (choice : Choice)
        (more : List Choice),
      mode.starts ctx → client (mode.request ctx) = .ok primary →
      primary.choices = choice :: more →
      (mode.handler client ctx (World.start st)).2.state.insights = insightsFallback ctx) := by
  obtain ⟨ichoice, imore, hic, hicontent⟩ := text_choice completion text ht
  have key : ∀ w : World, (generateAIInsights client ctx w) =
      (.ok (), { state := { w.state with insights := insightsFallback ctx },
                 log := w.log ++ [.create (insightsRequest ctx)] ++
                   [.setInsights (insightsFallback ctx)] }) := by
    intro w
    rw [generateAIInsights_resolved client ctx w completion ichoice imore h hic]
    simp only [decoded, hicontent, Option.getD_some, hbad, Option.getD_none]
  refine ⟨fun w => ?_, fun mode st primary choice more hs hp hc => ?_⟩
  · rw [key w]
    exact ⟨rfl, rfl⟩
  · rw [handler_resolved mode client ctx (World.start st) primary choice more hs hp hc, key]

set_option maxRecDepth 100000 in
/-- C10 at a concrete input: Denver, the insights response a refusal. -/
theorem malformed_insights_store_fallback_witness :
    (generateAIInsights
        (scripted (.ok (Completion.ofText miamiText)) (.ok (Completion.ofText "Sorry, no.")))
        denver (World.start idle)).2.state.insights =
      .array
        [ .object
            [ ("title", .string "AI Climate Analysis"),
              ("content", .string "Climate analysis for Denver, CO shows varying risk levels. The AI assessment indicates the need for comprehensive climate adaptation planning for commercial properties.") ] ] :=
  ((malformed_insights_store_fallback
      (scripted (.ok (Completion.ofText miamiText)) (.ok (Completion.ofText "Sorry, no.")))
      denver (Completion.ofText "Sorry, no.") "Sorry, no." rfl rfl rfl).1
    (World.start idle)).2
